import Mathlib

/-
Verification of the MCP workflow-orchestration core of the uni-research-portal
repository: a shallow embedding in Lean 4 of the circuit breaker and retry
logic of `mcp-server/tools.py`, the metrics registry of
`mcp-server/tools/registry.py`, the context endpoints of `mcp-server/main.py`,
the tiered storage manager of `mcp-server/storage/storage_manager.py`, and the
workflow orchestrator of `mcp-server/orchestrator.py`.

Machine integers are modelled as `Nat`/`Int`; wall-clock instants are abstract
`Nat` values threaded explicitly; Python exceptions are `Except` errors; the
behaviour of external tool handlers is an oracle function supplied to each
execution.
-/

set_option maxRecDepth 10000

/-- Association list lookup, mirroring Python `dict.get`. -/
def alookup {α : Type} : List (String × α) → String → Option α
  | [], _ => none
  | p :: rest, k => if p.1 == k then some p.2 else alookup rest k

/-- Association list write, mirroring Python `dict.__setitem__`: the first
binding of the key is replaced in place, a missing key is appended. -/
def aset {α : Type} : List (String × α) → String → α → List (String × α)
  | [], k, v => [(k, v)]
  | p :: rest, k, v => if p.1 == k then (k, v) :: rest else p :: aset rest k v

theorem alookup_aset_self {α : Type} (m : List (String × α)) (k : String) (v : α) :
    alookup (aset m k v) k = some v := by
  induction m with
  | nil => simp [aset, alookup]
  | cons p rest ih =>
    by_cases h : p.1 = k
    · simp [aset, alookup, h]
    · have hb : (p.1 == k) = false := beq_eq_false_iff_ne.mpr h
      simp [aset, alookup, hb, ih]

theorem alookup_aset_ne {α : Type} (m : List (String × α)) (k k2 : String) (v : α)
    (h : k2 ≠ k) : alookup (aset m k v) k2 = alookup m k2 := by
  induction m with
  | nil =>
    have hb : (k == k2) = false := beq_eq_false_iff_ne.mpr (fun he => h he.symm)
    simp [aset, alookup, hb]
  | cons p rest ih =>
    by_cases hp : p.1 = k
    · have hb : (k == k2) = false := beq_eq_false_iff_ne.mpr (fun he => h he.symm)
      have hb2 : (p.1 == k2) = false := by
        subst hp; exact beq_eq_false_iff_ne.mpr (fun he => h he.symm)
      simp [aset, alookup, hp, hb, hb2]
    · have hb : (p.1 == k) = false := beq_eq_false_iff_ne.mpr hp
      simp [aset, alookup, hb, ih]

/-! ### Circuit breaker (`tools.py`, class `CircuitBreaker`) -/

/-- `CircuitBreakerState` dataclass: failure count, time of the last failure
(`None` until the first failure), open flag. -/
structure CircuitBreakerState where
  failureCount : Nat
  lastFailureTime : Option Nat
  isOpenFlag : Bool
deriving Repr, DecidableEq

/-- `CircuitBreaker`: threshold and cooldown (`timeout`) with per-tool states.
The constructor defaults in the source are `threshold=5, timeout=60`. -/
structure CircuitBreaker where
  threshold : Nat
  timeout : Nat
  states : List (String × CircuitBreakerState)
deriving Repr, DecidableEq

/-- `CircuitBreaker.record_success`: reset count and flag when a state exists. -/
def CircuitBreaker.recordSuccess (cb : CircuitBreaker) (toolName : String) : CircuitBreaker :=
  match alookup cb.states toolName with
  | none => cb
  | some st =>
    { cb with states := aset cb.states toolName { st with failureCount := 0, isOpenFlag := false } }

/-- `CircuitBreaker.record_failure`: insert a default state if missing, bump
the count, stamp the failure time, and open once the count reaches the
threshold. -/
def CircuitBreaker.recordFailure (cb : CircuitBreaker) (now : Nat) (toolName : String) :
    CircuitBreaker :=
  let st := (alookup cb.states toolName).getD ⟨0, none, false⟩
  let cnt := st.failureCount + 1
  { cb with
    states := aset cb.states toolName
      ⟨cnt, some now, if cb.threshold ≤ cnt then true else st.isOpenFlag⟩ }

/-- `CircuitBreaker.is_open`: lazily closes an open breaker once the cooldown
has elapsed since the last failure (mutating the state), hence it returns the
answer together with the possibly-updated breaker. -/
def CircuitBreaker.isOpenCheck (cb : CircuitBreaker) (now : Nat) (toolName : String) :
    Bool × CircuitBreaker :=
  match alookup cb.states toolName with
  | none => (false, cb)
  | some st =>
    if st.isOpenFlag = false then (false, cb)
    else
      match st.lastFailureTime with
      | some t =>
        if cb.timeout < now - t then
          (false, { cb with
            states := aset cb.states toolName { st with isOpenFlag := false, failureCount := 0 } })
        else (true, cb)
      | none => (true, cb)

/-! ### Tool registry with retry (`tools.py`, class `ToolRegistry`) -/

/-- The fields of the `ToolSchema` pydantic model that drive execution
(defaults in the source: `timeout_seconds=60`, `max_retries=3`). -/
structure ToolSchema where
  name : String
  timeoutSeconds : Nat
  maxRetries : Nat
deriving Repr, DecidableEq

/-- Registry state: tool schemas, the set of names with a registered handler,
and the shared circuit breaker. -/
structure ToolRegistry where
  tools : List (String × ToolSchema)
  handlers : List String
  circuitBreaker : CircuitBreaker
deriving Repr, DecidableEq

/-- Outcome of one handler invocation under `asyncio.wait_for`: a result, an
`asyncio.TimeoutError`, or an arbitrary exception with its message. -/
inductive AttemptOutcome where
  | ok (out : String)
  | timedOut
  | raised (msg : String)
deriving Repr, DecidableEq

/-- Projection of `ToolExecutionResponse` onto the fields the claims read. -/
structure ToolExecutionResponse where
  toolName : String
  status : String
  output : Option String
  error : Option String
deriving Repr, DecidableEq

/-- The f-string `f"Tool execution timed out after {timeout}s"`. -/
def timeoutMsg (t : Nat) : String :=
  "Tool execution timed out after " ++ toString t ++ "s"

/-- The `last_error` text recorded for a failed attempt. -/
def attemptError (tmo : Nat) : AttemptOutcome → String
  | .ok _ => ""
  | .timedOut => timeoutMsg tmo
  | .raised m => m

/-- `timeout = timeout_override or tool.timeout_seconds`: Python `or` falls
back to the configured timeout when the override is absent or `0` (falsy). -/
def effectiveTimeout (timeoutOverride : Option Nat) (toolTimeout : Nat) : Nat :=
  match timeoutOverride with
  | some t => if t = 0 then toolTimeout else t
  | none => toolTimeout

/-- Result of the retry loop: the successful output and its attempt index if
any attempt succeeded, the final `last_error`, the number of handler
invocations, and the backoff sleeps performed (in seconds). -/
structure LoopResult where
  success : Option (String × Nat)
  lastError : String
  calls : Nat
  sleeps : List Nat
deriving Repr, DecidableEq

/-- The successful payload of an attempt, `none` for a timeout or exception. -/
def okOutput : AttemptOutcome → Option String
  | .ok out => some out
  | .timedOut => none
  | .raised _ => none

/-- The loop `for attempt in range(max_retries + 1)` of `ToolRegistry.execute`,
written with `fuel` = number of retries still allowed, so that
`attempt < max_retries` in the source corresponds to `fuel > 0` (the loop is
entered with `attempt = 0`, `fuel = max_retries`). On a failure with retries
left it sleeps `2 ** attempt` and continues with the next attempt. -/
def retryLoop (outcomes : Nat → AttemptOutcome) (tmo : Nat) :
    Nat → Nat → LoopResult
  | 0, attempt =>
    match okOutput (outcomes attempt) with
    | some out => ⟨some (out, attempt), "", 1, []⟩
    | none => ⟨none, attemptError tmo (outcomes attempt), 1, []⟩
  | fuel2 + 1, attempt =>
    match okOutput (outcomes attempt) with
    | some out => ⟨some (out, attempt), "", 1, []⟩
    | none =>
      let r := retryLoop outcomes tmo fuel2 (attempt + 1)
      ⟨r.success, r.lastError, r.calls + 1, 2 ^ attempt :: r.sleeps⟩

/-- Full outcome of `ToolRegistry.execute`: a raised `ToolExecutionError` is
`Except.error`; otherwise the returned response.  The updated registry, the
number of handler invocations and the backoff sleeps are also exposed. -/
structure ExecOutcome where
  result : Except String ToolExecutionResponse
  registry : ToolRegistry
  handlerCalls : Nat
  sleeps : List Nat
deriving Repr

/-- `ToolRegistry.execute`: unknown tool and open breaker raise; otherwise the
handler runs under the effective timeout with up to `max_retries` retries; a
success resets the breaker and returns a success response; exhaustion records
one breaker failure and returns an error response carrying `last_error`. -/
def ToolRegistry.execute (reg : ToolRegistry) (now : Nat) (toolName : String)
    (outcomes : Nat → AttemptOutcome) (timeoutOverride : Option Nat) : ExecOutcome :=
  match alookup reg.tools toolName with
  | none => ⟨.error ("Tool " ++ toolName ++ " not found"), reg, 0, []⟩
  | some tool =>
    let check := reg.circuitBreaker.isOpenCheck now toolName
    let reg1 : ToolRegistry := { reg with circuitBreaker := check.2 }
    if check.1 then
      ⟨.error ("Circuit breaker open for tool " ++ toolName), reg1, 0, []⟩
    else if toolName ∈ reg.handlers then
      let tmo := effectiveTimeout timeoutOverride tool.timeoutSeconds
      let r := retryLoop outcomes tmo tool.maxRetries 0
      match r.success with
      | some (out, _) =>
        ⟨.ok ⟨toolName, "success", some out, none⟩,
          { reg1 with circuitBreaker := check.2.recordSuccess toolName }, r.calls, r.sleeps⟩
      | none =>
        ⟨.ok ⟨toolName, "error", none, some r.lastError⟩,
          { reg1 with circuitBreaker := check.2.recordFailure now toolName }, r.calls, r.sleeps⟩
    else ⟨.error ("Handler for tool " ++ toolName ++ " not found"), reg1, 0, []⟩

/-- A registry holding a single tool with a registered handler and a fresh
breaker with the given threshold and cooldown. -/
def mkSingleToolRegistry (tool : ToolSchema) (th tmo : Nat) : ToolRegistry :=
  { tools := [(tool.name, tool)], handlers := [tool.name], circuitBreaker := ⟨th, tmo, []⟩ }

/-- Repeated `execute` calls of the same tool at the given instants, keeping
only the evolving registry state. -/
def iterateExec (reg : ToolRegistry) (toolName : String)
    (outcomes : Nat → AttemptOutcome) (times : List Nat) : ToolRegistry :=
  times.foldl (fun r tm => (ToolRegistry.execute r tm toolName outcomes none).registry) reg

/-! ### Characterisation of the retry loop -/

theorem retryLoop_exhausted (outcomes : Nat → AttemptOutcome) (tmo : Nat) :
    ∀ (fuel attempt : Nat),
    (∀ k, attempt ≤ k → k ≤ attempt + fuel → okOutput (outcomes k) = none) →
    retryLoop outcomes tmo fuel attempt =
      ⟨none, attemptError tmo (outcomes (attempt + fuel)), fuel + 1,
        (List.range' attempt fuel).map (fun k => 2 ^ k)⟩ := by
  intro fuel
  induction fuel with
  | zero =>
    intro attempt hfail
    have h := hfail attempt le_rfl (by omega)
    simp [retryLoop, h]
  | succ fuel ih =>
    intro attempt hfail
    have hrec := ih (attempt + 1) (fun k hk1 hk2 => hfail k (by omega) (by omega))
    have h := hfail attempt le_rfl (by omega)
    simp only [retryLoop, h, hrec]
    have ha : attempt + 1 + fuel = attempt + (fuel + 1) := by omega
    rw [ha, List.range'_succ attempt fuel 1]
    simp

theorem retryLoop_calls_le (outcomes : Nat → AttemptOutcome) (tmo : Nat) :
    ∀ (fuel attempt : Nat), (retryLoop outcomes tmo fuel attempt).calls ≤ fuel + 1 := by
  intro fuel
  induction fuel with
  | zero =>
    intro attempt
    rcases h : okOutput (outcomes attempt) with _ | out <;> simp [retryLoop, h]
  | succ fuel ih =>
    intro attempt
    rcases h : okOutput (outcomes attempt) with _ | out
    · simp only [retryLoop, h]
      have := ih (attempt + 1)
      omega
    · simp [retryLoop, h]

/-- A closed-breaker execution whose attempts all fail returns the error
response with the last attempt's message, makes `max_retries + 1` handler
calls, sleeps `2 ^ attempt` between attempts, and records one breaker
failure. -/
theorem execute_exhausted (reg : ToolRegistry) (now : Nat) (toolName : String)
    (tool : ToolSchema) (outcomes : Nat → AttemptOutcome) (ov : Option Nat)
    (htool : alookup reg.tools toolName = some tool)
    (hopen : (reg.circuitBreaker.isOpenCheck now toolName).1 = false)
    (hhandler : toolName ∈ reg.handlers)
    (hfail : ∀ k, k ≤ tool.maxRetries → okOutput (outcomes k) = none) :
    reg.execute now toolName outcomes ov =
      ⟨.ok ⟨toolName, "error", none,
          some (attemptError (effectiveTimeout ov tool.timeoutSeconds) (outcomes tool.maxRetries))⟩,
        { reg with circuitBreaker :=
            ((reg.circuitBreaker.isOpenCheck now toolName).2).recordFailure now toolName },
        tool.maxRetries + 1,
        (List.range tool.maxRetries).map (fun k => 2 ^ k)⟩ := by
  have hloop := retryLoop_exhausted outcomes (effectiveTimeout ov tool.timeoutSeconds)
    tool.maxRetries 0 (fun k hk1 hk2 => hfail k (by omega))
  simp only [ToolRegistry.execute, htool, hopen, Bool.false_eq_true, if_false, hhandler,
    if_true, hloop]
  simp [List.range_eq_range']

/-- A single-tool registry with an explicit breaker state table. -/
def regWithStates (tool : ToolSchema) (th tmo : Nat)
    (sts : List (String × CircuitBreakerState)) : ToolRegistry :=
  { tools := [(tool.name, tool)], handlers := [tool.name], circuitBreaker := ⟨th, tmo, sts⟩ }

theorem getLastD_irrel (l : List Nat) (x a b : Nat) :
    (x :: l).getLastD a = (x :: l).getLastD b := by
  rw [List.getLastD_cons, List.getLastD_cons]

/-- Running consecutive all-failing executions drives the breaker count up by
exactly one per execution, opening the breaker exactly when the count reaches
the threshold (which happens at the last of `threshold` many executions). -/
theorem iterate_fail_states (tool : ToolSchema) (th tmo : Nat)
    (outcomes : Nat → AttemptOutcome) (hfail : ∀ k, okOutput (outcomes k) = none) :
    ∀ (times : List Nat) (c : Nat) (lt : Option Nat)
      (sts : List (String × CircuitBreakerState)),
    (sts = [] ∧ c = 0 ∧ lt = none ∨
      (∃ lt0, lt = some lt0 ∧ sts = [(tool.name, ⟨c, lt, false⟩)])) →
    c < th → c + times.length = th →
    iterateExec (regWithStates tool th tmo sts) tool.name outcomes times
      = regWithStates tool th tmo [(tool.name, ⟨th, some (times.getLastD 0), true⟩)] := by
  intro times
  induction times with
  | nil =>
    intro c lt sts hsts hc hlen
    exfalso; simp at hlen; omega
  | cons t rest ih =>
    intro c lt sts hsts hc hlen
    have htool : alookup (regWithStates tool th tmo sts).tools tool.name = some tool := by
      simp [regWithStates, alookup]
    have hopen : (regWithStates tool th tmo sts).circuitBreaker.isOpenCheck t tool.name
        = (false, (regWithStates tool th tmo sts).circuitBreaker) := by
      rcases hsts with ⟨h1, h2, h3⟩ | ⟨lt0, h2, h1⟩ <;>
        simp [regWithStates, CircuitBreaker.isOpenCheck, h1, alookup]
    have hhandler : tool.name ∈ (regWithStates tool th tmo sts).handlers := by
      simp [regWithStates]
    have hexec := execute_exhausted (regWithStates tool th tmo sts) t tool.name tool
      outcomes none htool (by rw [hopen]) hhandler (fun k _ => hfail k)
    have hrec : ((regWithStates tool th tmo sts).circuitBreaker.isOpenCheck t
        tool.name).2.recordFailure t tool.name
        = CircuitBreaker.mk th tmo [(tool.name, ⟨c + 1, some t, decide (th ≤ c + 1)⟩)] := by
      rw [hopen]
      rcases hsts with ⟨h1, h2, h3⟩ | ⟨lt0, h2, h1⟩
      · subst h1; subst h2
        simp [regWithStates, CircuitBreaker.recordFailure, alookup, aset]
      · subst h1
        simp [regWithStates, CircuitBreaker.recordFailure, alookup, aset]
    have hstep : (ToolRegistry.execute (regWithStates tool th tmo sts) t tool.name
        outcomes none).registry
        = regWithStates tool th tmo [(tool.name, ⟨c + 1, some t, decide (th ≤ c + 1)⟩)] := by
      rw [hexec]
      show ToolRegistry.mk _ _ _ = _
      rw [hrec]
      rfl
    rw [iterateExec, List.foldl_cons, hstep]
    rcases rest with _ | ⟨r, rest2⟩
    · have hc1 : c + 1 = th := by simp at hlen; omega
      have hflag : decide (th ≤ c + 1) = true := by simp [hc1]
      rw [List.foldl_nil, hflag, hc1]
      simp [List.getLastD]
    · have hc1 : c + 1 < th := by simp at hlen; omega
      have hflag : decide (th ≤ c + 1) = false := by simp; omega
      rw [hflag]
      have hfold : List.foldl (fun (rg : ToolRegistry) (tm : Nat) =>
          (ToolRegistry.execute rg tm tool.name outcomes none).registry)
          (regWithStates tool th tmo [(tool.name, ⟨c + 1, some t, false⟩)]) (r :: rest2)
          = iterateExec (regWithStates tool th tmo
              [(tool.name, ⟨c + 1, some t, false⟩)]) tool.name outcomes (r :: rest2) := rfl
      rw [hfold, ih (c + 1) (some t) [(tool.name, ⟨c + 1, some t, false⟩)]
        (Or.inr ⟨t, rfl, rfl⟩) hc1 (by simp at hlen ⊢; omega)]
      have hlast : (t :: r :: rest2).getLastD 0 = (r :: rest2).getLastD 0 := by
        rw [List.getLastD_cons]
        exact getLastD_irrel rest2 r t 0
      rw [hlast]

/-- A demo tool with the `ToolSchema` defaults `timeout_seconds=60`,
`max_retries=3`. -/
def demoTool : ToolSchema := ⟨"t", 60, 3⟩

/-- A registry holding `demoTool` behind a fresh breaker with the
`CircuitBreaker()` defaults `threshold=5, timeout=60`. -/
def demoRegistry : ToolRegistry := mkSingleToolRegistry demoTool 5 60

/-- A handler behaviour that raises `Exception("boom")` on every attempt. -/
def alwaysRaise : Nat → AttemptOutcome := fun _ => .raised "boom"

/-- A handler behaviour that hits the `asyncio.TimeoutError` on every attempt. -/
def alwaysTimeout : Nat → AttemptOutcome := fun _ => .timedOut

/-- C1, counterexample: on a fresh default registry (breaker threshold 5), one
execution in which all `max_retries + 1 = 4` attempts fail leaves the breaker
closed, and the next `execute` call for the tool still invokes the handler
(4 further attempts), contradicting the claim that the breaker reports open
and the subsequent call is rejected without invoking the handler. -/
theorem c1_counterexample :
    ((ToolRegistry.execute demoRegistry 0 "t" alwaysRaise none).registry.circuitBreaker.isOpenCheck
        1 "t").1 = false
    ∧ (ToolRegistry.execute
        (ToolRegistry.execute demoRegistry 0 "t" alwaysRaise none).registry
        1 "t" alwaysRaise none).handlerCalls = 4 := by
  exact ⟨rfl, rfl⟩

/-- C1, amended: every execution in which all `max_retries + 1` attempts fail
records exactly one breaker failure; after `threshold` many consecutive such
executions the breaker for the tool reports open, and a subsequent `execute`
call within the cooldown window is rejected without invoking the handler. -/
theorem c1_amended (tool : ToolSchema) (th tmo : Nat) (times : List Nat) (tl now : Nat)
    (outcomes outcomes2 : Nat → AttemptOutcome) (ov : Option Nat)
    (hth : 0 < th) (hlen : times.length = th)
    (hfail : ∀ k, okOutput (outcomes k) = none)
    (hlast : times.getLast? = some tl) (hcool : now - tl ≤ tmo) :
    iterateExec (mkSingleToolRegistry tool th tmo) tool.name outcomes times
        = regWithStates tool th tmo [(tool.name, ⟨th, some tl, true⟩)] ∧
    ((iterateExec (mkSingleToolRegistry tool th tmo) tool.name outcomes
        times).circuitBreaker.isOpenCheck now tool.name).1 = true ∧
    (ToolRegistry.execute (iterateExec (mkSingleToolRegistry tool th tmo) tool.name outcomes
        times) now tool.name outcomes2 ov).result
        = .error ("Circuit breaker open for tool " ++ tool.name) ∧
    (ToolRegistry.execute (iterateExec (mkSingleToolRegistry tool th tmo) tool.name outcomes
        times) now tool.name outcomes2 ov).handlerCalls = 0 := by
  have hne : times ≠ [] := by
    intro he; subst he; simp at hlen; omega
  have hgl : times.getLastD 0 = tl := by
    rw [List.getLastD_eq_getLast?, hlast]; rfl
  have hiter := iterate_fail_states tool th tmo outcomes hfail times 0 none []
    (Or.inl ⟨rfl, rfl, rfl⟩) hth (by omega)
  have hiter2 : iterateExec (mkSingleToolRegistry tool th tmo) tool.name outcomes times
      = regWithStates tool th tmo [(tool.name, ⟨th, some tl, true⟩)] := by
    rw [show mkSingleToolRegistry tool th tmo = regWithStates tool th tmo [] from rfl,
      hiter, hgl]
  refine ⟨hiter2, ?_, ?_, ?_⟩ <;>
    rw [hiter2] <;>
    simp [ToolRegistry.execute, regWithStates, CircuitBreaker.isOpenCheck, alookup,
      Nat.not_lt.mpr hcool]

/-- C1, witness: the amended statement at the default thresholds, with five
consecutive all-failing executions at instants 0..4 and a rejected call at
instant 10. -/
theorem c1_amended_witness :
    iterateExec (mkSingleToolRegistry demoTool 5 60) demoTool.name alwaysRaise [0, 1, 2, 3, 4]
        = regWithStates demoTool 5 60 [(demoTool.name, ⟨5, some 4, true⟩)] ∧
    ((iterateExec (mkSingleToolRegistry demoTool 5 60) demoTool.name alwaysRaise
        [0, 1, 2, 3, 4]).circuitBreaker.isOpenCheck 10 demoTool.name).1 = true ∧
    (ToolRegistry.execute (iterateExec (mkSingleToolRegistry demoTool 5 60) demoTool.name
        alwaysRaise [0, 1, 2, 3, 4]) 10 demoTool.name alwaysRaise none).result
        = .error ("Circuit breaker open for tool " ++ demoTool.name) ∧
    (ToolRegistry.execute (iterateExec (mkSingleToolRegistry demoTool 5 60) demoTool.name
        alwaysRaise [0, 1, 2, 3, 4]) 10 demoTool.name alwaysRaise none).handlerCalls = 0 :=
  c1_amended demoTool 5 60 [0, 1, 2, 3, 4] 4 10 alwaysRaise alwaysRaise none
    (by decide) rfl (fun k => rfl) rfl (by decide)

/-- C4, counterexample: with a timeout override of `0` supplied, the handler
is not run under the override: `timeout = timeout_override or
tool.timeout_seconds` discards the falsy `0`, and the timeout error message of
an all-timeout execution reports the tool's configured 60 seconds, not 0. -/
theorem c4_counterexample :
    (ToolRegistry.execute demoRegistry 0 "t" alwaysTimeout (some 0)).result
      = .ok ⟨"t", "error", none, some (timeoutMsg 60)⟩
    ∧ timeoutMsg 60 ≠ timeoutMsg 0 := by
  exact ⟨rfl, by decide⟩

/-- C4, amended: for a registered tool with a closed breaker, `execute` runs
the handler under the override timeout when one is given and nonzero (else the
tool's configured timeout), makes at most `max_retries` additional attempts,
sleeps `2 ^ attempt` between attempts, and on exhausting all attempts returns
(not raises) an error-status response carrying the last attempt's error. -/
theorem c4_amended (reg : ToolRegistry) (now : Nat) (toolName : String) (tool : ToolSchema)
    (outcomes : Nat → AttemptOutcome) (ov : Option Nat)
    (htool : alookup reg.tools toolName = some tool)
    (hopen : (reg.circuitBreaker.isOpenCheck now toolName).1 = false)
    (hhandler : toolName ∈ reg.handlers) :
    (ToolRegistry.execute reg now toolName outcomes ov).handlerCalls ≤ tool.maxRetries + 1 ∧
    ((∀ k, k ≤ tool.maxRetries → okOutput (outcomes k) = none) →
      (ToolRegistry.execute reg now toolName outcomes ov).result
          = .ok ⟨toolName, "error", none,
              some (attemptError (effectiveTimeout ov tool.timeoutSeconds)
                (outcomes tool.maxRetries))⟩ ∧
      (ToolRegistry.execute reg now toolName outcomes ov).handlerCalls = tool.maxRetries + 1 ∧
      (ToolRegistry.execute reg now toolName outcomes ov).sleeps
          = (List.range tool.maxRetries).map (fun k => 2 ^ k)) ∧
    (∀ t, ov = some t → t ≠ 0 → effectiveTimeout ov tool.timeoutSeconds = t) ∧
    (ov = none → effectiveTimeout ov tool.timeoutSeconds = tool.timeoutSeconds) := by
  refine ⟨?_, ?_, ?_, ?_⟩
  · have hle := retryLoop_calls_le outcomes (effectiveTimeout ov tool.timeoutSeconds)
      tool.maxRetries 0
    simp only [ToolRegistry.execute, htool, hopen, Bool.false_eq_true, if_false, hhandler,
      if_true]
    rcases hs : (retryLoop outcomes (effectiveTimeout ov tool.timeoutSeconds)
        tool.maxRetries 0).success with _ | ⟨out, att⟩ <;>
      simp [hs] <;> exact hle
  · intro hfail
    rw [execute_exhausted reg now toolName tool outcomes ov htool hopen hhandler hfail]
    exact ⟨rfl, rfl, rfl⟩
  · intro t ht hne
    subst ht
    simp [effectiveTimeout, hne]
  · intro h
    subst h
    rfl

/-- C4, witness: the amended statement at the demo registry with an all-timeout
handler and a `some 7` override; the error message carries the 7 second
override timeout and the backoff sleeps are `[1, 2, 4]`. -/
theorem c4_amended_witness :
    (ToolRegistry.execute demoRegistry 0 "t" alwaysTimeout (some 7)).handlerCalls
        ≤ demoTool.maxRetries + 1 ∧
    ((∀ k, k ≤ demoTool.maxRetries → okOutput (alwaysTimeout k) = none) →
      (ToolRegistry.execute demoRegistry 0 "t" alwaysTimeout (some 7)).result
          = .ok ⟨"t", "error", none,
              some (attemptError (effectiveTimeout (some 7) demoTool.timeoutSeconds)
                (alwaysTimeout demoTool.maxRetries))⟩ ∧
      (ToolRegistry.execute demoRegistry 0 "t" alwaysTimeout (some 7)).handlerCalls
          = demoTool.maxRetries + 1 ∧
      (ToolRegistry.execute demoRegistry 0 "t" alwaysTimeout (some 7)).sleeps
          = (List.range demoTool.maxRetries).map (fun k => 2 ^ k)) ∧
    (∀ t, (some 7 : Option Nat) = some t → t ≠ 0 →
      effectiveTimeout (some 7) demoTool.timeoutSeconds = t) ∧
    ((some 7 : Option Nat) = none →
      effectiveTimeout (some 7) demoTool.timeoutSeconds = demoTool.timeoutSeconds) :=
  c4_amended demoRegistry 0 "t" demoTool alwaysTimeout (some 7) rfl rfl (by decide)

/-! ### Metrics registry (`tools/registry.py`, class `ToolRegistry`) -/

/-- The per-tool metrics dictionary of the `Tool` dataclass in
`tools/registry.py` (`last_called_at` is modelled as the abstract instant). -/
structure ToolMetrics where
  totalCalls : Nat
  successCount : Nat
  errorCount : Nat
  totalDurationMs : Nat
  lastCalledAt : Option Nat
deriving Repr, DecidableEq

/-- Fresh metrics, as installed by the dataclass default factory. -/
def ToolMetrics.init : ToolMetrics := ⟨0, 0, 0, 0, none⟩

/-- The `Tool` dataclass of `tools/registry.py`. -/
structure MTool where
  name : String
  enabled : Bool
  metrics : ToolMetrics
deriving Repr, DecidableEq

/-- Registry of `tools/registry.py`: a name-keyed map of tools. -/
structure MetricsRegistry where
  mtools : List (String × MTool)
deriving Repr, DecidableEq

/-- One awaited call of `tool.function`: either a result with the elapsed
duration, or an exception with its message and the elapsed duration. -/
inductive CallOutcome where
  | ok (result : String) (durationMs : Nat)
  | err (msg : String) (durationMs : Nat)
deriving Repr, DecidableEq

/-- `ToolRegistry.execute` of `tools/registry.py`: missing or disabled tools
raise; otherwise `total_calls` and `last_called_at` are updated, then on
success `success_count` and `total_duration_ms` are updated and the result
returned, while on an exception `error_count` is updated and the exception
re-raised (`total_duration_ms` is left unchanged). -/
def MetricsRegistry.execute (reg : MetricsRegistry) (now : Nat) (toolName : String)
    (outcome : CallOutcome) : Except String String × MetricsRegistry :=
  match alookup reg.mtools toolName with
  | none => (.error ("Tool not found: " ++ toolName), reg)
  | some tool =>
    if tool.enabled = false then (.error ("Tool disabled: " ++ toolName), reg)
    else
      let m1 := { tool.metrics with
        totalCalls := tool.metrics.totalCalls + 1, lastCalledAt := some now }
      match outcome with
      | .ok result d =>
        let m2 := { m1 with
          successCount := m1.successCount + 1, totalDurationMs := m1.totalDurationMs + d }
        (.ok result, ⟨aset reg.mtools toolName { tool with metrics := m2 }⟩)
      | .err msg _ =>
        let m2 := { m1 with errorCount := m1.errorCount + 1 }
        (.error msg, ⟨aset reg.mtools toolName { tool with metrics := m2 }⟩)

/-- A one-tool metrics registry with fresh metrics. -/
def demoMetricsRegistry : MetricsRegistry := ⟨[("x", ⟨"x", true, ToolMetrics.init⟩)]⟩

/-- C9, counterexample: a failing execution that took 5 ms bumps the call and
error counters but leaves the cumulative latency unchanged at 0, so the
metrics are not all incremented regardless of outcome. -/
theorem c9_counterexample :
    (alookup (demoMetricsRegistry.execute 3 "x" (.err "boom" 5)).2.mtools "x").map MTool.metrics
      = some ⟨1, 0, 1, 0, some 3⟩
    ∧ (0 : Nat) ≠ 5 := by
  exact ⟨rfl, by decide⟩

/-- C9, amended: for every execution of a registered enabled tool, the registry
increments the call count and the success or error count as appropriate, but
accumulates latency only on success; on an exception the cumulative latency is
unchanged and the exception is re-raised. -/
theorem c9_amended (reg : MetricsRegistry) (now : Nat) (toolName : String) (tool : MTool)
    (htool : alookup reg.mtools toolName = some tool) (hen : tool.enabled = true) :
    (∀ result d, (reg.execute now toolName (.ok result d)).1 = .ok result ∧
      alookup (reg.execute now toolName (.ok result d)).2.mtools toolName
        = some { tool with metrics :=
            ⟨tool.metrics.totalCalls + 1, tool.metrics.successCount + 1,
              tool.metrics.errorCount, tool.metrics.totalDurationMs + d, some now⟩ }) ∧
    (∀ msg d, (reg.execute now toolName (.err msg d)).1 = .error msg ∧
      alookup (reg.execute now toolName (.err msg d)).2.mtools toolName
        = some { tool with metrics :=
            ⟨tool.metrics.totalCalls + 1, tool.metrics.successCount,
              tool.metrics.errorCount + 1, tool.metrics.totalDurationMs, some now⟩ }) := by
  constructor
  · intro result d
    constructor
    · simp [MetricsRegistry.execute, htool, hen]
    · simp only [MetricsRegistry.execute, htool, hen, Bool.true_eq_false, if_false]
      exact alookup_aset_self _ _ _
  · intro msg d
    constructor
    · simp [MetricsRegistry.execute, htool, hen]
    · simp only [MetricsRegistry.execute, htool, hen, Bool.true_eq_false, if_false]
      exact alookup_aset_self _ _ _

/-- C9, witness: the amended statement at the fresh demo metrics registry,
with a successful 5 ms call and a failing 5 ms call. -/
theorem c9_amended_witness :
    (demoMetricsRegistry.execute 3 "x" (.ok "r" 5)).1 = .ok "r" ∧
    alookup (demoMetricsRegistry.execute 3 "x" (.ok "r" 5)).2.mtools "x"
      = some ⟨"x", true, ⟨1, 1, 0, 5, some 3⟩⟩ ∧
    (demoMetricsRegistry.execute 3 "x" (.err "boom" 5)).1 = .error "boom" ∧
    alookup (demoMetricsRegistry.execute 3 "x" (.err "boom" 5)).2.mtools "x"
      = some ⟨"x", true, ⟨1, 0, 1, 0, some 3⟩⟩ := by
  obtain ⟨h1, h2⟩ := c9_amended demoMetricsRegistry 3 "x" ⟨"x", true, ToolMetrics.init⟩ rfl rfl
  obtain ⟨ha, hb⟩ := h1 "r" 5
  obtain ⟨hc, hd⟩ := h2 "boom" 5
  exact ⟨ha, by simpa using hb, hc, by simpa using hd⟩

/-! ### Research context and the context endpoints (`models.py`, `main.py`) -/

/-- `ResearchContext` with the fields the endpoints manipulate.  Entries of
the five list-typed research fields are opaque; the `workflow_state` and
`metadata` maps are opaque values that are overwritten whole. -/
structure ResearchContext where
  contextId : String
  ownerId : String
  query : String
  createdAt : Nat
  lastUpdated : Nat
  ttlSeconds : Nat
  status : String
  papers : List String
  embeddings : List String
  clusters : List String
  citationMetrics : List String
  externalSignals : List String
  agentLogs : List String
  workflowState : String
  metadata : String
deriving Repr, DecidableEq

/-- `UpdateContextRequest`: every field optional; an omitted or `None` field is
skipped by the update loop. -/
structure UpdateContextRequest where
  papers : Option (List String) := none
  embeddings : Option (List String) := none
  clusters : Option (List String) := none
  citationMetrics : Option (List String) := none
  externalSignals : Option (List String) := none
  agentLogs : Option (List String) := none
  workflowState : Option String := none
  metadata : Option String := none
  status : Option String := none
deriving Repr, DecidableEq

/-- The update loop of the `PATCH /context/{context_id}` endpoint: the keys
`papers, embeddings, clusters, citation_metrics, agent_logs` are extended
(appended to); every other present field — including the list-typed
`external_signals` — is overwritten by `setattr`. -/
def applyContextUpdates (ctx : ResearchContext) (u : UpdateContextRequest) : ResearchContext :=
  { ctx with
    papers := match u.papers with | some v => ctx.papers ++ v | none => ctx.papers
    embeddings := match u.embeddings with | some v => ctx.embeddings ++ v | none => ctx.embeddings
    clusters := match u.clusters with | some v => ctx.clusters ++ v | none => ctx.clusters
    citationMetrics := match u.citationMetrics with
      | some v => ctx.citationMetrics ++ v
      | none => ctx.citationMetrics
    agentLogs := match u.agentLogs with | some v => ctx.agentLogs ++ v | none => ctx.agentLogs
    externalSignals := u.externalSignals.getD ctx.externalSignals
    workflowState := u.workflowState.getD ctx.workflowState
    metadata := u.metadata.getD ctx.metadata
    status := u.status.getD ctx.status }

/-- The two storage tiers of `main.py`: the Redis store and the optional
Firestore store, each a map from context id to context. -/
structure ServerState where
  redis : List (String × ResearchContext)
  firestore : List (String × ResearchContext)
  firestoreEnabled : Bool
deriving Repr, DecidableEq

/-- `POST /context/create`: build the fresh context, reject it with a size
error before any write when `validate_context_size` fails, otherwise store it
in Redis and, if enabled, in Firestore. -/
def createContext (st : ServerState) (contextId ownerId query : String) (ttl now : Nat)
    (validate : ResearchContext → Bool) : Except String String × ServerState :=
  let ctx : ResearchContext :=
    ⟨contextId, ownerId, query, now, now, ttl, "active", [], [], [], [], [], [], "", ""⟩
  if validate ctx = false then (.error "Context size exceeds maximum limit", st)
  else
    let st1 := { st with redis := aset st.redis contextId ctx }
    let st2 := if st.firestoreEnabled
      then { st1 with firestore := aset st1.firestore contextId ctx }
      else st1
    (.ok contextId, st2)

/-- `PATCH /context/{context_id}`: look the context up in Redis (404 when
absent), apply the partial updates, refresh `last_updated`, reject with a size
error before any write when `validate_context_size` fails, else write the
merged context back to Redis and, if enabled, to Firestore. -/
def updateContext (st : ServerState) (contextId : String) (u : UpdateContextRequest)
    (now : Nat) (validate : ResearchContext → Bool) : Except String String × ServerState :=
  match alookup st.redis contextId with
  | none => (.error ("Context " ++ contextId ++ " not found"), st)
  | some ctx =>
    let ctx2 := { applyContextUpdates ctx u with lastUpdated := now }
    if validate ctx2 = false then
      (.error "Updated context size exceeds maximum limit", st)
    else
      let st1 := { st with redis := aset st.redis contextId ctx2 }
      let st2 := if st.firestoreEnabled
        then { st1 with firestore := aset st1.firestore contextId ctx2 }
        else st1
      (.ok "Context updated successfully", st2)

/-- C3: on a successful update of an existing context, every list-typed delta
(papers, embeddings, clusters, citation_metrics, agent_logs) is appended —
`len(after) = len(before) + len(delta)` — scalar and map fields are
overwritten, and `last_updated` is refreshed. -/
theorem c3_update_appends (st : ServerState) (contextId : String) (u : UpdateContextRequest)
    (now : Nat) (validate : ResearchContext → Bool) (ctx : ResearchContext)
    (hfound : alookup st.redis contextId = some ctx)
    (hsize : validate { applyContextUpdates ctx u with lastUpdated := now } = true) :
    (updateContext st contextId u now validate).1 = .ok "Context updated successfully" ∧
    alookup (updateContext st contextId u now validate).2.redis contextId
      = some { applyContextUpdates ctx u with lastUpdated := now } ∧
    (∀ d, u.papers = some d →
      { applyContextUpdates ctx u with lastUpdated := now }.papers = ctx.papers ++ d ∧
      { applyContextUpdates ctx u with lastUpdated := now }.papers.length
        = ctx.papers.length + d.length) ∧
    (∀ d, u.embeddings = some d →
      { applyContextUpdates ctx u with lastUpdated := now }.embeddings = ctx.embeddings ++ d ∧
      { applyContextUpdates ctx u with lastUpdated := now }.embeddings.length
        = ctx.embeddings.length + d.length) ∧
    (∀ d, u.clusters = some d →
      { applyContextUpdates ctx u with lastUpdated := now }.clusters = ctx.clusters ++ d ∧
      { applyContextUpdates ctx u with lastUpdated := now }.clusters.length
        = ctx.clusters.length + d.length) ∧
    (∀ d, u.citationMetrics = some d →
      { applyContextUpdates ctx u with lastUpdated := now }.citationMetrics
        = ctx.citationMetrics ++ d ∧
      { applyContextUpdates ctx u with lastUpdated := now }.citationMetrics.length
        = ctx.citationMetrics.length + d.length) ∧
    (∀ d, u.agentLogs = some d →
      { applyContextUpdates ctx u with lastUpdated := now }.agentLogs = ctx.agentLogs ++ d ∧
      { applyContextUpdates ctx u with lastUpdated := now }.agentLogs.length
        = ctx.agentLogs.length + d.length) ∧
    (∀ s, u.status = some s →
      { applyContextUpdates ctx u with lastUpdated := now }.status = s) ∧
    (∀ w, u.workflowState = some w →
      { applyContextUpdates ctx u with lastUpdated := now }.workflowState = w) ∧
    (∀ m, u.metadata = some m →
      { applyContextUpdates ctx u with lastUpdated := now }.metadata = m) ∧
    { applyContextUpdates ctx u with lastUpdated := now }.lastUpdated = now := by
  refine ⟨?_, ?_, ?_, ?_, ?_, ?_, ?_, ?_, ?_, ?_, rfl⟩
  · simp [updateContext, hfound, hsize]
  · simp only [updateContext, hfound, hsize, Bool.true_eq_false, if_false]
    rcases hfs : st.firestoreEnabled <;> simp [hfs, alookup_aset_self]
  · intro d hd; simp [applyContextUpdates, hd]
  · intro d hd; simp [applyContextUpdates, hd]
  · intro d hd; simp [applyContextUpdates, hd]
  · intro d hd; simp [applyContextUpdates, hd]
  · intro d hd; simp [applyContextUpdates, hd]
  · intro s hs; simp [applyContextUpdates, hs]
  · intro w hw; simp [applyContextUpdates, hw]
  · intro m hm; simp [applyContextUpdates, hm]

/-- A demo context used to instantiate the endpoint theorems. -/
def demoContext : ResearchContext :=
  ⟨"c1", "o1", "q", 0, 0, 3600, "active", ["p1"], [], ["k1"], [], [], ["l1"], "ws", "md"⟩

/-- A demo update carrying one new paper, one new log entry and a new status. -/
def demoUpdate : UpdateContextRequest :=
  { papers := some ["p2"], agentLogs := some ["l2"], status := some "completed" }

/-- C3, witness: updating the demo context appends the paper and log deltas,
overwrites the status and refreshes `last_updated`. -/
theorem c3_update_appends_witness :
    (updateContext ⟨[("c1", demoContext)], [], false⟩ "c1" demoUpdate 9 (fun _ => true)).1
      = .ok "Context updated successfully" ∧
    alookup (updateContext ⟨[("c1", demoContext)], [], false⟩ "c1" demoUpdate 9
        (fun _ => true)).2.redis "c1"
      = some { applyContextUpdates demoContext demoUpdate with lastUpdated := 9 } ∧
    { applyContextUpdates demoContext demoUpdate with lastUpdated := 9 }.papers
      = ["p1", "p2"] ∧
    { applyContextUpdates demoContext demoUpdate with lastUpdated := 9 }.papers.length
      = demoContext.papers.length + 1 ∧
    { applyContextUpdates demoContext demoUpdate with lastUpdated := 9 }.agentLogs
      = ["l1", "l2"] ∧
    { applyContextUpdates demoContext demoUpdate with lastUpdated := 9 }.status
      = "completed" ∧
    { applyContextUpdates demoContext demoUpdate with lastUpdated := 9 }.lastUpdated = 9 := by
  obtain ⟨h1, h2, h3, _, _, _, h7, h8, _, _, h11⟩ :=
    c3_update_appends ⟨[("c1", demoContext)], [], false⟩ "c1" demoUpdate 9 (fun _ => true)
      demoContext rfl rfl
  obtain ⟨h3a, h3b⟩ := h3 ["p2"] rfl
  obtain ⟨h7a, _⟩ := h7 ["l2"] rfl
  exact ⟨h1, h2, by simpa using h3a, by simpa using h3b, by simpa using h7a,
    h8 "completed" rfl, h11⟩

/-- C5: when the size validation fails, both create and update reject the
operation with a size error and leave the server state — both storage tiers —
exactly unchanged. -/
theorem c5_size_rejected (st : ServerState) (contextId ownerId query : String)
    (ttl now : Nat) (u : UpdateContextRequest) (validate : ResearchContext → Bool)
    (ctx : ResearchContext) :
    (validate ⟨contextId, ownerId, query, now, now, ttl, "active",
        [], [], [], [], [], [], "", ""⟩ = false →
      createContext st contextId ownerId query ttl now validate
        = (.error "Context size exceeds maximum limit", st)) ∧
    (alookup st.redis contextId = some ctx →
      validate { applyContextUpdates ctx u with lastUpdated := now } = false →
      updateContext st contextId u now validate
        = (.error "Updated context size exceeds maximum limit", st)) := by
  constructor
  · intro hv
    simp [createContext, hv]
  · intro hfound hv
    simp [updateContext, hfound, hv]

/-- C5, witness: with a validator that rejects everything, both endpoints
reject the demo inputs and return the starting state untouched. -/
theorem c5_size_rejected_witness :
    (createContext ⟨[("c1", demoContext)], [], true⟩ "c9" "o" "q" 3600 5 (fun _ => false)
        = (.error "Context size exceeds maximum limit", ⟨[("c1", demoContext)], [], true⟩)) ∧
    (updateContext ⟨[("c1", demoContext)], [], true⟩ "c1" demoUpdate 5 (fun _ => false)
        = (.error "Updated context size exceeds maximum limit",
            ⟨[("c1", demoContext)], [], true⟩)) := by
  obtain ⟨h1, h2⟩ := c5_size_rejected ⟨[("c1", demoContext)], [], true⟩ "c9" "o" "q" 3600 5
    demoUpdate (fun _ => false) demoContext
  refine ⟨h1 rfl, ?_⟩
  have h3 := c5_size_rejected ⟨[("c1", demoContext)], [], true⟩ "c1" "o" "q" 3600 5
    demoUpdate (fun _ => false) demoContext
  exact h3.2 rfl rfl

/-! ### Tiered storage manager (`storage/storage_manager.py`) -/

/-- The two tiers routed by `StorageManager`: the Redis cache and the ChromaDB
backup, each a map from context id to an opaque serialized context. -/
structure StorageState where
  redisTier : List (String × String)
  chromaTier : List (String × String)
deriving Repr, DecidableEq

/-- Which tier served a `get_context` request. -/
inductive ServedFrom where
  | redisTier
  | chromaTier
  | missing
deriving Repr, DecidableEq

/-- `StorageManager.get_context`: try Redis first; on a miss try ChromaDB and,
on a hit there, restore the context into Redis before returning it. -/
def StorageManager.getContext (st : StorageState) (contextId : String) :
    Option String × ServedFrom × StorageState :=
  match alookup st.redisTier contextId with
  | some c => (some c, .redisTier, st)
  | none =>
    match alookup st.chromaTier contextId with
    | some c => (some c, .chromaTier, { st with redisTier := aset st.redisTier contextId c })
    | none => (none, .missing, st)

/-- C8: on a Redis miss with a ChromaDB hit, `get_context` returns the durable
copy and repopulates the Redis tier with it, so an immediately following read
of the same context is served by the Redis tier with the same value. -/
theorem c8_read_repair (st : StorageState) (contextId : String) (c : String)
    (hmiss : alookup st.redisTier contextId = none)
    (hhit : alookup st.chromaTier contextId = some c) :
    StorageManager.getContext st contextId
      = (some c, .chromaTier, { st with redisTier := aset st.redisTier contextId c }) ∧
    StorageManager.getContext (StorageManager.getContext st contextId).2.2 contextId
      = (some c, .redisTier, { st with redisTier := aset st.redisTier contextId c }) := by
  have h1 : StorageManager.getContext st contextId
      = (some c, .chromaTier, { st with redisTier := aset st.redisTier contextId c }) := by
    simp [StorageManager.getContext, hmiss, hhit]
  refine ⟨h1, ?_⟩
  rw [h1]
  simp [StorageManager.getContext, alookup_aset_self]

/-- C8, witness: a state whose Redis tier is empty and whose ChromaDB tier
holds context `c1`; the first read is served by ChromaDB and repairs Redis,
the second read is served by Redis. -/
theorem c8_read_repair_witness :
    StorageManager.getContext ⟨[], [("c1", "ctx")]⟩ "c1"
      = (some "ctx", .chromaTier, ⟨[("c1", "ctx")], [("c1", "ctx")]⟩) ∧
    StorageManager.getContext
        (StorageManager.getContext ⟨[], [("c1", "ctx")]⟩ "c1").2.2 "c1"
      = (some "ctx", .redisTier, ⟨[("c1", "ctx")], [("c1", "ctx")]⟩) :=
  c8_read_repair ⟨[], [("c1", "ctx")]⟩ "c1" "ctx" rfl rfl

/-! ### Workflow orchestrator (`orchestrator.py`) -/

/-- `WorkflowStep`: tool name, opaque input payload, dependency step ids. -/
structure WorkflowStep where
  tool : String
  input : String
  dependsOn : List String
deriving Repr, DecidableEq

/-- The fields of `WorkflowSpec` the orchestrator reads. -/
structure WorkflowSpec where
  name : String
  mode : String
  steps : List WorkflowStep
  onError : String
deriving Repr, DecidableEq

/-- Behaviour of `tool_registry.execute` for one orchestrated step: a returned
response with its status and error, a raised `asyncio.TimeoutError`, or any
other raised exception with its message. -/
inductive StepOutcome where
  | resp (status : String) (error : Option String)
  | timeoutExc
  | exc (msg : String)
deriving Repr, DecidableEq

/-- Projection of a per-step `ToolExecutionResponse` onto status and error. -/
structure StepResult where
  status : String
  error : Option String
deriving Repr, DecidableEq

/-- The `_execute_sequential` loop: strictly in order; a returned error result
stops the loop under the `stop` policy and continues under `continue`,
`retry`, or any other policy value; a raised exception is appended as a
`timeout`/`error` result and stops only under `stop`.  The second component
is the list of step indices for which `tool_registry.execute` was invoked. -/
def execSeqGo (onError : String) (outcome : Nat → StepOutcome) :
    Nat → List WorkflowStep → List (Nat × StepResult) × List Nat
  | _, [] => ([], [])
  | i, _ :: rest =>
    match outcome i with
    | .resp st err =>
      if st == "error" && onError == "stop" then ([(i, ⟨st, err⟩)], [i])
      else
        let r := execSeqGo onError outcome (i + 1) rest
        ((i, ⟨st, err⟩) :: r.1, i :: r.2)
    | .timeoutExc =>
      if onError == "stop" then
        ([(i, ⟨"timeout", some "Step execution timed out"⟩)], [i])
      else
        let r := execSeqGo onError outcome (i + 1) rest
        ((i, ⟨"timeout", some "Step execution timed out"⟩) :: r.1, i :: r.2)
    | .exc m =>
      if onError == "stop" then ([(i, ⟨"error", some m⟩)], [i])
      else
        let r := execSeqGo onError outcome (i + 1) rest
        ((i, ⟨"error", some m⟩) :: r.1, i :: r.2)

/-- `_execute_sequential`: raises when the context is missing, otherwise runs
the loop from step 0. -/
def execSequentialE (ctxExists : Bool) (spec : WorkflowSpec) (outcome : Nat → StepOutcome) :
    Except String (List (Nat × StepResult) × List Nat) :=
  if ctxExists = false then .error "Context not found"
  else .ok (execSeqGo spec.onError outcome 0 spec.steps)

/-- The per-step result produced inside the parallel/DAG workers: a returned
response is passed through, a raised exception is caught and converted to an
error-status response with the exception text (`str(asyncio.TimeoutError())`
is the empty string). -/
def caughtStepResult : StepOutcome → StepResult
  | .resp st err => ⟨st, err⟩
  | .timeoutExc => ⟨"error", some ""⟩
  | .exc m => ⟨"error", some m⟩

/-- `_execute_parallel`: raises when the context is missing; otherwise every
step runs (bounded concurrency does not change the set of executed steps) and
the results are collected in step order. -/
def execParallelE (ctxExists : Bool) (spec : WorkflowSpec) (outcome : Nat → StepOutcome) :
    Except String (List (Nat × StepResult) × List Nat) :=
  if ctxExists = false then .error "Context not found"
  else .ok ((List.range spec.steps.length).map (fun i => (i, caughtStepResult (outcome i))),
    List.range spec.steps.length)

/-- Step ids are the strings `f"step_{i}"` over the declaration order. -/
def stepId (i : Nat) : String := "step_" ++ Nat.repr i

/-- The `depends_on` list of step `i` (empty when `i` is out of range). -/
def depsOf (steps : List WorkflowStep) (i : Nat) : List String :=
  ((steps[i]?).map (fun s => s.dependsOn)).getD []

/-- The `dependents` adjacency of the DAG build: the indices (in declaration
order, with one entry per occurrence) of the steps listing `step_j` among
their dependencies. -/
def dependentsOf (steps : List WorkflowStep) (j : Nat) : List Nat :=
  (List.range steps.length).flatMap
    (fun i => ((depsOf steps i).filter (fun d => d == stepId j)).map (fun _ => i))

/-- One `in_degree[dependent] -= 1` with the conditional enqueue on zero.
Counts are `Int` because Python integers go negative. -/
def relaxOne (acc : (Nat → Int) × List Nat) (d : Nat) : (Nat → Int) × List Nat :=
  let n := acc.1 d - 1
  (fun x => if x = d then n else acc.1 x, if n = 0 then acc.2 ++ [d] else acc.2)

/-- Processing the dependents of one executed step. -/
def relaxStep (steps : List WorkflowStep) (acc : (Nat → Int) × List Nat) (j : Nat) :
    (Nat → Int) × List Nat :=
  (dependentsOf steps j).foldl relaxOne acc

/-- The `while queue:` loop of `_execute_dag`: execute the whole ready batch,
then decrement the in-degrees of dependents, enqueueing those that reach zero.
Each iteration consumes a nonempty queue of not-yet-executed steps, so
`steps.length` iterations of fuel always suffice. -/
def dagLoop (steps : List WorkflowStep) (outcome : Nat → StepOutcome) :
    Nat → (Nat → Int) → List Nat → List (Nat × StepResult) → List Nat →
    List (Nat × StepResult) × List Nat
  | 0, _, _, results, trace => (results, trace)
  | fuel + 1, inDeg, queue, results, trace =>
    if queue = [] then (results, trace)
    else
      let results2 := results ++ queue.map (fun i => (i, caughtStepResult (outcome i)))
      let trace2 := trace ++ queue
      let rq := queue.foldl (relaxStep steps) (inDeg, ([] : List Nat))
      dagLoop steps outcome fuel rq.1 rq.2 results2 trace2

/-- The initial in-degree of step `i`: one per entry of its `depends_on`. -/
def initInDeg (steps : List WorkflowStep) : Nat → Int :=
  fun i => ((depsOf steps i).length : Int)

/-- `_execute_dag`: raises when the context is missing; seeds the queue with
the zero-in-degree steps in declaration order and rejects the spec when there
is none; finally returns the executed results in declaration order, silently
skipping steps that never ran. -/
def execDagE (ctxExists : Bool) (spec : WorkflowSpec) (outcome : Nat → StepOutcome) :
    Except String (List (Nat × StepResult) × List Nat) :=
  if ctxExists = false then .error "Context not found"
  else
    let queue0 := (List.range spec.steps.length).filter
      (fun i => initInDeg spec.steps i == 0)
    if queue0 = [] then
      .error "No steps with zero dependencies found - possible cycle in DAG"
    else
      let rt := dagLoop spec.steps outcome spec.steps.length (initInDeg spec.steps) queue0 [] []
      .ok ((List.range spec.steps.length).filterMap
        (fun i => (rt.1.reverse.find? (fun p => p.1 == i)).map (fun p => (i, p.2))), rt.2)

/-- Routing of `execute_workflow` to the three modes; an unknown mode raises. -/
def modeExec (ctxExists : Bool) (spec : WorkflowSpec) (outcome : Nat → StepOutcome) :
    Except String (List (Nat × StepResult) × List Nat) :=
  if spec.mode == "sequential" then execSequentialE ctxExists spec outcome
  else if spec.mode == "parallel" then execParallelE ctxExists spec outcome
  else if spec.mode == "dag" then execDagE ctxExists spec outcome
  else .error ("Unknown workflow mode: " ++ spec.mode)

/-- The fields of `WorkflowExecutionResponse` the claims read. -/
structure WorkflowResponse where
  status : String
  stepsCompleted : Nat
  stepsTotal : Nat
  stepsFailed : Nat
  results : List (Nat × StepResult)
deriving Repr, DecidableEq

/-- `execute_workflow`: on a normal mode result, count the `success` and
`error` results and aggregate `completed`/`partial`/`failed`; any raised
exception is caught and converted into a `failed` response with no results.
The second component is the list of step indices the orchestrator attempted
(empty on the exception path, which fires before any step runs). -/
def executeWorkflow (ctxExists : Bool) (spec : WorkflowSpec) (outcome : Nat → StepOutcome) :
    WorkflowResponse × List Nat :=
  match modeExec ctxExists spec outcome with
  | .ok (pairs, trace) =>
    let completed := (pairs.filter (fun p => p.2.status == "success")).length
    let failed := (pairs.filter (fun p => p.2.status == "error")).length
    let status := if failed = 0 then "completed" else if completed > 0 then "partial" else "failed"
    (⟨status, completed, spec.steps.length, failed, pairs⟩, trace)
  | .error _ => (⟨"failed", 0, spec.steps.length, spec.steps.length, []⟩, [])

/-- C2: in a 3-step sequential workflow under the `stop` policy where step 1
returns success and step 2 returns an error result, the response reports
`steps_completed = 1`, `steps_failed = 1`, status `partial`, and step 3 is
never attempted (so its tool handler is never invoked). -/
theorem c2_sequential_stop (name : String) (steps : List WorkflowStep)
    (outcome : Nat → StepOutcome) (e0 e1 : Option String)
    (hlen : steps.length = 3)
    (h0 : outcome 0 = .resp "success" e0)
    (h1 : outcome 1 = .resp "error" e1) :
    (executeWorkflow true ⟨name, "sequential", steps, "stop"⟩ outcome).1.status = "partial" ∧
    (executeWorkflow true ⟨name, "sequential", steps, "stop"⟩ outcome).1.stepsCompleted = 1 ∧
    (executeWorkflow true ⟨name, "sequential", steps, "stop"⟩ outcome).1.stepsFailed = 1 ∧
    (executeWorkflow true ⟨name, "sequential", steps, "stop"⟩ outcome).1.stepsTotal = 3 ∧
    (executeWorkflow true ⟨name, "sequential", steps, "stop"⟩ outcome).1.results
      = [(0, ⟨"success", e0⟩), (1, ⟨"error", e1⟩)] ∧
    (executeWorkflow true ⟨name, "sequential", steps, "stop"⟩ outcome).2 = [0, 1] ∧
    2 ∉ (executeWorkflow true ⟨name, "sequential", steps, "stop"⟩ outcome).2 := by
  rcases steps with _ | ⟨s0, steps⟩
  · simp at hlen
  rcases steps with _ | ⟨s1, steps⟩
  · simp at hlen
  rcases steps with _ | ⟨s2, steps⟩
  · simp at hlen
  rcases steps with _ | ⟨s3, steps⟩
  · simp [executeWorkflow, modeExec, execSequentialE, execSeqGo, h0, h1]
  · simp at hlen

/-- The 3-step demo workflow used as concrete instance of the sequential
claims. -/
def seqDemoSteps : List WorkflowStep := [⟨"a", "", []⟩, ⟨"b", "", []⟩, ⟨"c", "", []⟩]

/-- Demo outcomes: step 1 succeeds, step 2 fails, step 3 would succeed. -/
def seqDemoOutcome : Nat → StepOutcome
  | 0 => .resp "success" none
  | 1 => .resp "error" (some "x")
  | _ => .resp "success" none

/-- C2, witness: the 3-step demo run under the `stop` policy. -/
theorem c2_sequential_stop_witness :
    (executeWorkflow true ⟨"w", "sequential", seqDemoSteps, "stop"⟩
        seqDemoOutcome).1.status = "partial" ∧
    (executeWorkflow true ⟨"w", "sequential", seqDemoSteps, "stop"⟩
        seqDemoOutcome).1.stepsCompleted = 1 ∧
    (executeWorkflow true ⟨"w", "sequential", seqDemoSteps, "stop"⟩
        seqDemoOutcome).1.stepsFailed = 1 ∧
    (executeWorkflow true ⟨"w", "sequential", seqDemoSteps, "stop"⟩
        seqDemoOutcome).1.stepsTotal = 3 ∧
    (executeWorkflow true ⟨"w", "sequential", seqDemoSteps, "stop"⟩
        seqDemoOutcome).1.results
      = [(0, ⟨"success", none⟩), (1, ⟨"error", some "x"⟩)] ∧
    (executeWorkflow true ⟨"w", "sequential", seqDemoSteps, "stop"⟩ seqDemoOutcome).2
      = [0, 1] ∧
    2 ∉ (executeWorkflow true ⟨"w", "sequential", seqDemoSteps, "stop"⟩ seqDemoOutcome).2 :=
  c2_sequential_stop "w" seqDemoSteps seqDemoOutcome none (some "x") rfl rfl rfl

/-- C6: a DAG workflow in which every step has a non-empty `depends_on` is
rejected with the malformed-DAG error before any step runs: no step is
attempted and no step result is produced. -/
theorem c6_dag_all_deps_rejected (name onError : String) (steps : List WorkflowStep)
    (outcome : Nat → StepOutcome)
    (hdeps : ∀ s ∈ steps, s.dependsOn ≠ []) :
    modeExec true ⟨name, "dag", steps, onError⟩ outcome
      = .error "No steps with zero dependencies found - possible cycle in DAG" ∧
    executeWorkflow true ⟨name, "dag", steps, onError⟩ outcome
      = (⟨"failed", 0, steps.length, steps.length, []⟩, []) := by
  have hq : (List.range steps.length).filter (fun i => initInDeg steps i == 0) = [] := by
    rw [List.filter_eq_nil_iff]
    intro i hi
    rw [List.mem_range] at hi
    have hsome : steps[i]? = some steps[i] := List.getElem?_eq_getElem hi
    have hmem : steps[i] ∈ steps := List.getElem_mem hi
    have hne := hdeps _ hmem
    have hpos : 0 < (depsOf steps i).length := by
      rw [depsOf, hsome]
      simpa using List.length_pos.mpr hne
    simp only [initInDeg, beq_iff_eq]
    intro hcontra
    rw [Int.natCast_eq_zero] at hcontra
    omega
  have hmode : modeExec true ⟨name, "dag", steps, onError⟩ outcome
      = .error "No steps with zero dependencies found - possible cycle in DAG" := by
    simp [modeExec, execDagE, hq]
  exact ⟨hmode, by simp [executeWorkflow, hmode]⟩

/-- The 2-step demo DAG in which each step depends on the other. -/
def allDepsSteps : List WorkflowStep := [⟨"a", "", ["step_1"]⟩, ⟨"b", "", ["step_0"]⟩]

/-- C6, witness: the two-step cyclic demo DAG is rejected before execution. -/
theorem c6_dag_all_deps_rejected_witness :
    modeExec true ⟨"w", "dag", allDepsSteps, "stop"⟩ (fun _ => .resp "success" none)
      = .error "No steps with zero dependencies found - possible cycle in DAG" ∧
    executeWorkflow true ⟨"w", "dag", allDepsSteps, "stop"⟩ (fun _ => .resp "success" none)
      = (⟨"failed", 0, 2, 2, []⟩, []) :=
  c6_dag_all_deps_rejected "w" "stop" allDepsSteps (fun _ => .resp "success" none)
    (by intro s hs; fin_cases hs <;> simp [allDepsSteps])

/-- C7, counterexample: executing an empty sequential workflow produces zero
successful step results, yet the status is `completed`, not `failed` as the
claim's "failed when zero step results succeeded" case demands. -/
theorem c7_counterexample :
    (executeWorkflow true ⟨"w", "sequential", [], "stop"⟩
        (fun _ => .resp "success" none)).1.results = [] ∧
    (executeWorkflow true ⟨"w", "sequential", [], "stop"⟩
        (fun _ => .resp "success" none)).1.stepsCompleted = 0 ∧
    (executeWorkflow true ⟨"w", "sequential", [], "stop"⟩
        (fun _ => .resp "success" none)).1.status = "completed" ∧
    "completed" ≠ "failed" := by
  exact ⟨rfl, rfl, rfl, by decide⟩

/-- C7, amended: every workflow execution returns a structured response.  When
the mode executor completes, the counts are the numbers of `success`/`error`
results, and the status is `completed` when no result failed, otherwise
`partial` when at least one result succeeded, otherwise `failed`.  When the
executor raises (missing context, malformed DAG, unknown mode), the response
is `failed` with no results. -/
theorem c7_status_aggregation (ctxExists : Bool) (spec : WorkflowSpec)
    (outcome : Nat → StepOutcome) :
    (∀ pairs trace, modeExec ctxExists spec outcome = .ok (pairs, trace) →
      (executeWorkflow ctxExists spec outcome).1.results = pairs ∧
      (executeWorkflow ctxExists spec outcome).1.stepsCompleted
        = (pairs.filter (fun p => p.2.status == "success")).length ∧
      (executeWorkflow ctxExists spec outcome).1.stepsFailed
        = (pairs.filter (fun p => p.2.status == "error")).length ∧
      ((pairs.filter (fun p => p.2.status == "error")).length = 0 →
        (executeWorkflow ctxExists spec outcome).1.status = "completed") ∧
      ((pairs.filter (fun p => p.2.status == "error")).length ≠ 0 →
        0 < (pairs.filter (fun p => p.2.status == "success")).length →
        (executeWorkflow ctxExists spec outcome).1.status = "partial") ∧
      ((pairs.filter (fun p => p.2.status == "error")).length ≠ 0 →
        (pairs.filter (fun p => p.2.status == "success")).length = 0 →
        (executeWorkflow ctxExists spec outcome).1.status = "failed")) ∧
    (∀ e, modeExec ctxExists spec outcome = .error e →
      (executeWorkflow ctxExists spec outcome).1
        = ⟨"failed", 0, spec.steps.length, spec.steps.length, []⟩) := by
  constructor
  · intro pairs trace h
    refine ⟨by simp [executeWorkflow, h], by simp [executeWorkflow, h],
      by simp [executeWorkflow, h], ?_, ?_, ?_⟩
    · intro hf; simp [executeWorkflow, h, hf]
    · intro hf hc; simp [executeWorkflow, h, hf, hc, Nat.pos_iff_ne_zero.mp hc]
    · intro hf hc; simp [executeWorkflow, h, hf, hc]
  · intro e h
    simp [executeWorkflow, h]

/-- C7, witness: the amended statement applied to the 3-step sequential demo
(partial outcome) and to a missing-context run (failed outcome). -/
theorem c7_status_aggregation_witness :
    (executeWorkflow true ⟨"w", "sequential", seqDemoSteps, "stop"⟩
        seqDemoOutcome).1.status = "partial" ∧
    (executeWorkflow false ⟨"w", "sequential", seqDemoSteps, "stop"⟩ seqDemoOutcome).1
      = ⟨"failed", 0, 3, 3, []⟩ := by
  obtain ⟨hok, herr⟩ := c7_status_aggregation true ⟨"w", "sequential", seqDemoSteps, "stop"⟩
    seqDemoOutcome
  obtain ⟨hok2, herr2⟩ := c7_status_aggregation false ⟨"w", "sequential", seqDemoSteps, "stop"⟩
    seqDemoOutcome
  obtain ⟨hr, hc, hf, hs1, hs2, hs3⟩ :=
    hok [(0, ⟨"success", none⟩), (1, ⟨"error", some "x"⟩)] [0, 1] rfl
  exact ⟨hs2 (by decide) (by decide), by simpa using herr2 "Context not found" rfl⟩

/-! ### Reachability analysis of the DAG scheduler (claim C10) -/

/-- Decimal value of a digit character. -/
def charVal (c : Char) : Nat := c.toNat - '0'.toNat

/-- Parse a digit-character list back into the number it denotes. -/
def ofChars (l : List Char) : Nat := l.foldl (fun acc c => acc * 10 + charVal c) 0

theorem charVal_digitChar : ∀ d, d < 10 → charVal (Nat.digitChar d) = d := by decide

theorem toDigitsCore_append : ∀ (fuel n : Nat) (ds : List Char),
    Nat.toDigitsCore 10 fuel n ds = Nat.toDigitsCore 10 fuel n [] ++ ds := by
  intro fuel
  induction fuel with
  | zero => intro n ds; rfl
  | succ fuel ih =>
    intro n ds
    by_cases h : n / 10 = 0
    · simp [Nat.toDigitsCore, h]
    · simp only [Nat.toDigitsCore, h, if_false]
      rw [ih (n / 10) [Nat.digitChar (n % 10)], ih (n / 10) (Nat.digitChar (n % 10) :: ds)]
      simp

theorem ofChars_toDigitsCore : ∀ (fuel n : Nat), n < fuel →
    ofChars (Nat.toDigitsCore 10 fuel n []) = n := by
  intro fuel
  induction fuel with
  | zero => intro n h; omega
  | succ fuel ih =>
    intro n h
    by_cases h0 : n / 10 = 0
    · have hn : n < 10 := by omega
      have hmod : n % 10 = n := Nat.mod_eq_of_lt hn
      simp [Nat.toDigitsCore, h0, ofChars, hmod, charVal_digitChar n hn]
    · simp only [Nat.toDigitsCore, h0, if_false]
      rw [toDigitsCore_append fuel (n / 10) [Nat.digitChar (n % 10)]]
      have hdiv : n / 10 < n := Nat.div_lt_self (by omega) (by omega)
      have ihd := ih (n / 10) (by omega)
      show ofChars (Nat.toDigitsCore 10 fuel (n / 10) [] ++ [Nat.digitChar (n % 10)]) = n
      rw [ofChars, List.foldl_append]
      rw [show (Nat.toDigitsCore 10 fuel (n / 10) []).foldl
        (fun acc c => acc * 10 + charVal c) 0 = ofChars (Nat.toDigitsCore 10 fuel (n / 10) [])
        from rfl, ihd]
      simp [charVal_digitChar (n % 10) (by omega)]
      omega

theorem repr_injective (m n : Nat) (h : Nat.repr m = Nat.repr n) : m = n := by
  have hm : ofChars (Nat.repr m).data = m := ofChars_toDigitsCore (m + 1) m (by omega)
  have hn : ofChars (Nat.repr n).data = n := ofChars_toDigitsCore (n + 1) n (by omega)
  rw [← hm, ← hn, h]

theorem stepId_injective (m n : Nat) (h : stepId m = stepId n) : m = n := by
  have hd : ("step_" ++ Nat.repr m).data = ("step_" ++ Nat.repr n).data :=
    congrArg String.data h
  rw [String.data_append, String.data_append] at hd
  exact repr_injective m n (String.ext (List.append_cancel_left hd))

/-- `satisfiedBy T d`: the dependency string `d` is the id of some executed
step of `T`. -/
def satisfiedBy (T : List Nat) (d : String) : Bool := T.any (fun j => d == stepId j)

/-- How many times `step_j` occurs among step `e`'s dependencies (equals the
number of entries for `e` in `dependents[step_j]`). -/
def occCount (steps : List WorkflowStep) (j e : Nat) : Nat :=
  ((depsOf steps e).filter (fun d => d == stepId j)).length

/-- The number of dependency occurrences of step `e` not yet satisfied by the
executed set `T`; the loop keeps `in_degree e` equal to it. -/
def unsat (steps : List WorkflowStep) (T : List Nat) (e : Nat) : Nat :=
  ((depsOf steps e).filter (fun d => !(satisfiedBy T d))).length

/-- Every dependency of `e` is the id of some element of `T`. -/
def DepsIn (steps : List WorkflowStep) (T : List Nat) (e : Nat) : Prop :=
  ∀ d ∈ depsOf steps e, ∃ j ∈ T, d = stepId j

/-- A step is resolvable when it exists and all its dependencies name existing
resolvable steps — the least fixpoint excludes steps on or downstream of a
dependency cycle and steps depending (transitively) on a nonexistent id. -/
inductive Resolvable (steps : List WorkflowStep) : Nat → Prop where
  | intro (i : Nat) (hi : i < steps.length)
      (hex : ∀ d ∈ depsOf steps i, ∃ j, j < steps.length ∧ d = stepId j)
      (hdeps : ∀ j, j < steps.length → stepId j ∈ depsOf steps i → Resolvable steps j) :
      Resolvable steps i

theorem satisfiedBy_true_iff (T : List Nat) (d : String) :
    satisfiedBy T d = true ↔ ∃ j ∈ T, d = stepId j := by
  simp [satisfiedBy, List.any_eq_true, beq_iff_eq]

theorem satisfiedBy_append (T : List Nat) (j : Nat) (d : String) :
    satisfiedBy (T ++ [j]) d = (satisfiedBy T d || (d == stepId j)) := by
  simp [satisfiedBy]

theorem DepsIn_mono (steps : List WorkflowStep) (T T2 : List Nat)
    (hsub : ∀ j ∈ T, j ∈ T2) (e : Nat) (h : DepsIn steps T e) : DepsIn steps T2 e := by
  intro d hd
  obtain ⟨j, hj, he⟩ := h d hd
  exact ⟨j, hsub j hj, he⟩

theorem unsat_zero_DepsIn (steps : List WorkflowStep) (T : List Nat) (e : Nat)
    (h : unsat steps T e = 0) : DepsIn steps T e := by
  rw [unsat, List.length_eq_zero] at h
  intro d hd
  have h2 := List.filter_eq_nil_iff.mp h d hd
  have h3 : satisfiedBy T d = true := by
    rcases hb : satisfiedBy T d
    · rw [hb] at h2; simp at h2
    · rfl
  exact (satisfiedBy_true_iff T d).mp h3

theorem unsat_nil (steps : List WorkflowStep) (e : Nat) :
    unsat steps [] e = (depsOf steps e).length := by
  simp [unsat, satisfiedBy]

theorem filter_split_fresh (T : List Nat) (j : Nat)
    (hfresh : satisfiedBy T (stepId j) = false) :
    ∀ (l : List String),
    (l.filter (fun d => !(satisfiedBy (T ++ [j]) d))).length
      + (l.filter (fun d => d == stepId j)).length
      = (l.filter (fun d => !(satisfiedBy T d))).length := by
  intro l
  induction l with
  | nil => rfl
  | cons d l ih =>
    by_cases hd : d = stepId j
    · subst hd
      have h1 : satisfiedBy (T ++ [j]) (stepId j) = true := by
        rw [satisfiedBy_append, hfresh]
        simp
      simp [List.filter_cons, h1, hfresh]
      omega
    · have hbe : (d == stepId j) = false := beq_eq_false_iff_ne.mpr hd
      have hsa : satisfiedBy (T ++ [j]) d = satisfiedBy T d := by
        rw [satisfiedBy_append, hbe, Bool.or_false]
      rcases hb : satisfiedBy T d
      · simp [List.filter_cons, hsa, hb, hbe]
        omega
      · simp [List.filter_cons, hsa, hb, hbe]
        omega

theorem unsat_append_fresh (steps : List WorkflowStep) (T : List Nat) (j e : Nat)
    (hfresh : satisfiedBy T (stepId j) = false) :
    unsat steps (T ++ [j]) e + occCount steps j e = unsat steps T e :=
  filter_split_fresh T j hfresh (depsOf steps e)

theorem mem_dependentsOf (steps : List WorkflowStep) (j e : Nat) :
    e ∈ dependentsOf steps j ↔ e < steps.length ∧ stepId j ∈ depsOf steps e := by
  constructor
  · intro h
    rw [dependentsOf, List.mem_flatMap] at h
    obtain ⟨i, hi, hmem⟩ := h
    rw [List.mem_map] at hmem
    obtain ⟨d, hd, he⟩ := hmem
    subst he
    rw [List.mem_filter] at hd
    have hd2 : d = stepId j := by simpa using hd.2
    subst hd2
    exact ⟨List.mem_range.mp hi, hd.1⟩
  · intro ⟨hlt, hmem⟩
    rw [dependentsOf, List.mem_flatMap]
    refine ⟨e, List.mem_range.mpr hlt, ?_⟩
    rw [List.mem_map]
    refine ⟨stepId j, ?_, rfl⟩
    rw [List.mem_filter]
    exact ⟨hmem, by simp⟩

theorem count_map_const {α : Type} (l : List α) (i e : Nat) :
    ((l.map (fun _ => i)).count e) = if e = i then l.length else 0 := by
  rw [List.map_const' l i, List.count_replicate]
  by_cases h : e = i
  · subst h; simp
  · have hb : (i == e) = false := beq_eq_false_iff_ne.mpr (fun he => h he.symm)
    simp [hb, h]

theorem count_flatMap_occ (steps : List WorkflowStep) (j e : Nat) :
    ∀ (l : List Nat),
    ((l.flatMap (fun i => ((depsOf steps i).filter (fun d => d == stepId j)).map
      (fun _ => i))).count e) = l.count e * occCount steps j e := by
  intro l
  induction l with
  | nil => simp
  | cons i l ih =>
    rw [List.flatMap_cons, List.count_append, ih, count_map_const]
    by_cases h : e = i
    · subst h
      rw [if_pos rfl, List.count_cons_self, occCount]
      ring
    · rw [if_neg h, List.count_cons_of_ne h]
      omega

theorem count_dependentsOf (steps : List WorkflowStep) (j e : Nat)
    (he : e < steps.length) :
    (dependentsOf steps j).count e = occCount steps j e := by
  rw [dependentsOf, count_flatMap_occ, List.count_eq_one_of_mem (List.nodup_range _)
    (List.mem_range.mpr he), one_mul]

/-- Invariant of the inner fold over `dependents[step_j]`: decremented entries
are exactly the unexecuted dependents of `j`; an entry is enqueued exactly at
its last pending occurrence, at which point all its dependencies are
satisfied; and for entries that stay out of the new queue the in-degree keeps
counting the dependency occurrences not yet satisfied. -/
theorem relax_fold_inv (steps : List WorkflowStep) (trace queue B : List Nat) (j : Nat) :
    ∀ (L : List Nat) (inDegCur : Nat → Int) (newq : List Nat),
    (∀ e ∈ L, e < steps.length ∧ e ∉ trace ∧ e ∉ queue) →
    (∀ e ∈ newq, (e < steps.length ∧ e ∉ trace ∧ e ∉ queue ∧
      DepsIn steps (trace ++ B ++ [j]) e) ∧ e ∉ L) →
    newq.Nodup →
    (∀ e, e < steps.length → e ∉ trace → e ∉ queue → e ∉ newq →
      inDegCur e = (unsat steps (trace ++ B ++ [j]) e : Int) + (L.count e : Nat)) →
    (∀ e ∈ (L.foldl relaxOne (inDegCur, newq)).2, e < steps.length ∧ e ∉ trace ∧
      e ∉ queue ∧ DepsIn steps (trace ++ B ++ [j]) e) ∧
    (L.foldl relaxOne (inDegCur, newq)).2.Nodup ∧
    (∀ e, e < steps.length → e ∉ trace → e ∉ queue →
      e ∉ (L.foldl relaxOne (inDegCur, newq)).2 →
      (L.foldl relaxOne (inDegCur, newq)).1 e
        = (unsat steps (trace ++ B ++ [j]) e : Int)) := by
  intro L
  induction L with
  | nil =>
    intro inDegCur newq HL K1 K2 K3
    simp only [List.foldl_nil]
    refine ⟨fun e he => (K1 e he).1, K2, fun e h1 h2 h3 h4 => ?_⟩
    have := K3 e h1 h2 h3 h4
    simpa using this
  | cons d L2 ih =>
    intro inDegCur newq HL K1 K2 K3
    obtain ⟨hdn, hdt, hdq⟩ := HL d (List.mem_cons_self d L2)
    have hdnew : d ∉ newq := fun hmem => (K1 d hmem).2 (List.mem_cons_self d L2)
    have hK3d := K3 d hdn hdt hdq hdnew
    have hv : inDegCur d - 1
        = (unsat steps (trace ++ B ++ [j]) d : Int) + (L2.count d : Nat) := by
      rw [hK3d, List.count_cons_self]
      push_cast
      ring
    rw [List.foldl_cons]
    by_cases hz : inDegCur d - 1 = 0
    · have hzero : unsat steps (trace ++ B ++ [j]) d = 0 ∧ L2.count d = 0 := by
        rw [hv] at hz
        constructor <;> omega
      have hrel : relaxOne (inDegCur, newq) d
          = (fun x => if x = d then inDegCur d - 1 else inDegCur x, newq ++ [d]) := by
        simp only [relaxOne]
        rw [if_pos hz]
      rw [hrel]
      apply ih
      · intro e he
        exact HL e (List.mem_cons_of_mem d he)
      · intro e he
        rcases List.mem_append.mp he with he2 | he2
        · obtain ⟨hp, hne⟩ := K1 e he2
          exact ⟨hp, fun hmem => hne (List.mem_cons_of_mem d hmem)⟩
        · have hed : e = d := by simpa using he2
          subst hed
          refine ⟨⟨hdn, hdt, hdq, unsat_zero_DepsIn _ _ _ hzero.1⟩, ?_⟩
          exact List.count_eq_zero.mp hzero.2
      · rw [List.nodup_append]
        refine ⟨K2, List.nodup_singleton d, ?_⟩
        intro x hx hx2
        have : x = d := by simpa using hx2
        subst this
        exact hdnew hx
      · intro e h1 h2 h3 h4
        have hed : e ≠ d := by
          intro hh
          subst hh
          exact h4 (List.mem_append.mpr (Or.inr (by simp)))
        have hnq : e ∉ newq := fun hh => h4 (List.mem_append.mpr (Or.inl hh))
        have hK := K3 e h1 h2 h3 hnq
        rw [List.count_cons_of_ne hed] at hK
        simpa [hed] using hK
    · have hrel : relaxOne (inDegCur, newq) d
          = (fun x => if x = d then inDegCur d - 1 else inDegCur x, newq) := by
        simp only [relaxOne]
        rw [if_neg hz]
      rw [hrel]
      apply ih
      · intro e he
        exact HL e (List.mem_cons_of_mem d he)
      · intro e he
        obtain ⟨hp, hne⟩ := K1 e he
        exact ⟨hp, fun hmem => hne (List.mem_cons_of_mem d hmem)⟩
      · exact K2
      · intro e h1 h2 h3 h4
        by_cases hed : e = d
        · subst hed
          simpa using hv
        · have hK := K3 e h1 h2 h3 h4
          rw [List.count_cons_of_ne hed] at hK
          simpa [hed] using hK

/-- Invariant of the fold over the ready batch: after relaxing the dependents
of the executed batch prefix, every enqueued step is a fresh step all of whose
dependencies are satisfied by the executed set, the queue stays duplicate
free, and the in-degrees of untouched steps count their unsatisfied
dependency occurrences. -/
theorem batch_fold_inv (steps : List WorkflowStep) (trace queue : List Nat)
    (hI1 : ∀ i ∈ trace, i < steps.length)
    (hI4 : queue.Nodup) (hI5 : ∀ i ∈ queue, i ∉ trace)
    (hI6 : ∀ i ∈ trace, DepsIn steps trace i) (hI7 : ∀ i ∈ queue, DepsIn steps trace i) :
    ∀ (R B : List Nat) (inDegCur : Nat → Int) (newq : List Nat),
    queue = B ++ R →
    (∀ e ∈ newq, e < steps.length ∧ e ∉ trace ∧ e ∉ queue ∧
      DepsIn steps (trace ++ B) e) →
    newq.Nodup →
    (∀ e, e < steps.length → e ∉ trace → e ∉ queue → e ∉ newq →
      inDegCur e = (unsat steps (trace ++ B) e : Int)) →
    (∀ e ∈ (R.foldl (relaxStep steps) (inDegCur, newq)).2,
      e < steps.length ∧ e ∉ trace ∧ e ∉ queue ∧ DepsIn steps (trace ++ queue) e) ∧
    (R.foldl (relaxStep steps) (inDegCur, newq)).2.Nodup ∧
    (∀ e, e < steps.length → e ∉ trace → e ∉ queue →
      e ∉ (R.foldl (relaxStep steps) (inDegCur, newq)).2 →
      (R.foldl (relaxStep steps) (inDegCur, newq)).1 e
        = (unsat steps (trace ++ queue) e : Int)) := by
  intro R
  induction R with
  | nil =>
    intro B inDegCur newq hqB J1 J2 J3
    rw [List.append_nil] at hqB
    subst hqB
    simp only [List.foldl_nil]
    exact ⟨J1, J2, J3⟩
  | cons j R2 ih =>
    intro B inDegCur newq hqB J1 J2 J3
    have hjq : j ∈ queue := by
      rw [hqB]
      exact List.mem_append.mpr (Or.inr (List.mem_cons_self j R2))
    have hjB : j ∉ B := by
      intro hjB2
      have hnd := hI4
      rw [hqB, List.nodup_append] at hnd
      exact hnd.2.2 hjB2 (List.mem_cons_self j R2)
    have hjt : j ∉ trace := hI5 j hjq
    have hfresh : satisfiedBy (trace ++ B) (stepId j) = false := by
      rcases hb : satisfiedBy (trace ++ B) (stepId j)
      · rfl
      · exfalso
        obtain ⟨j2, hj2, he⟩ := (satisfiedBy_true_iff _ _).mp hb
        have hjj := stepId_injective j j2 he
        subst hjj
        rcases List.mem_append.mp hj2 with h | h
        · exact hjt h
        · exact hjB h
    have hdeps_free : ∀ e ∈ dependentsOf steps j,
        e < steps.length ∧ e ∉ trace ∧ e ∉ queue := by
      intro e he
      obtain ⟨hen, hmem⟩ := (mem_dependentsOf steps j e).mp he
      refine ⟨hen, ?_, ?_⟩
      · intro het
        obtain ⟨j2, hj2, he2⟩ := hI6 e het (stepId j) hmem
        have hjj := stepId_injective j j2 he2
        subst hjj
        exact hjt hj2
      · intro heq
        obtain ⟨j2, hj2, he2⟩ := hI7 e heq (stepId j) hmem
        have hjj := stepId_injective j j2 he2
        subst hjj
        exact hjt hj2
    have hK1 : ∀ e ∈ newq, (e < steps.length ∧ e ∉ trace ∧ e ∉ queue ∧
        DepsIn steps (trace ++ B ++ [j]) e) ∧ e ∉ dependentsOf steps j := by
      intro e he
      obtain ⟨h1, h2, h3, h4⟩ := J1 e he
      refine ⟨⟨h1, h2, h3, ?_⟩, ?_⟩
      · rw [List.append_assoc]
        exact DepsIn_mono steps (trace ++ B) (trace ++ (B ++ [j]))
          (fun x hx => by
            rcases List.mem_append.mp hx with h | h
            · exact List.mem_append.mpr (Or.inl h)
            · exact List.mem_append.mpr (Or.inr (List.mem_append.mpr (Or.inl h)))) e h4
      · intro hmem
        obtain ⟨hen, hmem2⟩ := (mem_dependentsOf steps j e).mp hmem
        obtain ⟨j2, hj2, he2⟩ := h4 (stepId j) hmem2
        have hjj := stepId_injective j j2 he2
        subst hjj
        rcases List.mem_append.mp hj2 with h | h
        · exact hjt h
        · exact hjB h
    have hK3 : ∀ e, e < steps.length → e ∉ trace → e ∉ queue → e ∉ newq →
        inDegCur e = (unsat steps (trace ++ B ++ [j]) e : Int)
          + ((dependentsOf steps j).count e : Nat) := by
      intro e h1 h2 h3 h4
      have hJ := J3 e h1 h2 h3 h4
      have hocc := unsat_append_fresh steps (trace ++ B) j e hfresh
      have hcnt := count_dependentsOf steps j e h1
      rw [hJ, hcnt, ← hocc]
      push_cast
      ring
    have hrec := relax_fold_inv steps trace queue B j (dependentsOf steps j) inDegCur newq
      hdeps_free hK1 J2 hK3
    obtain ⟨P1, P2, P3⟩ := hrec
    rw [List.foldl_cons]
    rw [show relaxStep steps (inDegCur, newq) j
      = (dependentsOf steps j).foldl relaxOne (inDegCur, newq) from rfl]
    rcases hfold : (dependentsOf steps j).foldl relaxOne (inDegCur, newq) with ⟨inDeg2, newq2⟩
    rw [hfold] at P1 P2 P3
    have hassoc : queue = (B ++ [j]) ++ R2 := by
      rw [hqB, List.append_assoc]
      rfl
    have happ : trace ++ (B ++ [j]) = trace ++ B ++ [j] := by
      rw [List.append_assoc]
    exact ih (B ++ [j]) inDeg2 newq2 hassoc
      (fun e he => by rw [happ]; exact P1 e he)
      P2
      (fun e h1 h2 h3 h4 => by rw [happ]; exact P3 e h1 h2 h3 h4)

/-- Soundness of the DAG scheduling loop: every step it ever executes is
`Resolvable`, the result keys are exactly the executed steps in execution
order, and the executed steps are distinct in-range indices. -/
theorem dagLoop_sound (steps : List WorkflowStep) (outcome : Nat → StepOutcome) :
    ∀ (fuel : Nat) (inDeg : Nat → Int) (queue : List Nat)
      (results : List (Nat × StepResult)) (trace : List Nat),
    (∀ i ∈ trace, i < steps.length) → (∀ i ∈ queue, i < steps.length) →
    trace.Nodup → queue.Nodup → (∀ i ∈ queue, i ∉ trace) →
    (∀ i ∈ trace, DepsIn steps trace i) → (∀ i ∈ queue, DepsIn steps trace i) →
    (∀ i ∈ trace, Resolvable steps i) →
    results.map Prod.fst = trace →
    (∀ e, e < steps.length → e ∉ trace → e ∉ queue →
      inDeg e = (unsat steps trace e : Int)) →
    (∀ i ∈ (dagLoop steps outcome fuel inDeg queue results trace).2, Resolvable steps i) ∧
    (dagLoop steps outcome fuel inDeg queue results trace).1.map Prod.fst
      = (dagLoop steps outcome fuel inDeg queue results trace).2 ∧
    (dagLoop steps outcome fuel inDeg queue results trace).2.Nodup ∧
    (∀ i ∈ (dagLoop steps outcome fuel inDeg queue results trace).2, i < steps.length) := by
  intro fuel
  induction fuel with
  | zero =>
    intro inDeg queue results trace I1 I2 I3 I4 I5 I6 I7 IR IM I8
    simp only [dagLoop]
    exact ⟨IR, IM, I3, I1⟩
  | succ fuel ih =>
    intro inDeg queue results trace I1 I2 I3 I4 I5 I6 I7 IR IM I8
    by_cases hq : queue = []
    · simp only [dagLoop, if_pos hq]
      exact ⟨IR, IM, I3, I1⟩
    · simp only [dagLoop, if_neg hq]
      have hdisj : trace.Disjoint queue := fun a ha ha2 => I5 a ha2 ha
      have hbatch := batch_fold_inv steps trace queue I1 I4 I5 I6 I7 queue [] inDeg []
        (by simp) (by simp) List.nodup_nil
        (by
          intro e h1 h2 h3 h4
          rw [List.append_nil]
          exact I8 e h1 h2 h3)
      obtain ⟨P1, P2, P3⟩ := hbatch
      apply ih
      · intro i hi
        rcases List.mem_append.mp hi with h | h
        · exact I1 i h
        · exact I2 i h
      · intro i hi
        exact (P1 i hi).1
      · rw [List.nodup_append]
        exact ⟨I3, I4, hdisj⟩
      · exact P2
      · intro i hi
        obtain ⟨h1, h2, h3, h4⟩ := P1 i hi
        intro hmem
        rcases List.mem_append.mp hmem with h | h
        · exact h2 h
        · exact h3 h
      · intro i hi
        rcases List.mem_append.mp hi with h | h
        · exact DepsIn_mono steps trace (trace ++ queue)
            (fun x hx => List.mem_append.mpr (Or.inl hx)) i (I6 i h)
        · exact DepsIn_mono steps trace (trace ++ queue)
            (fun x hx => List.mem_append.mpr (Or.inl hx)) i (I7 i h)
      · intro i hi
        exact (P1 i hi).2.2.2
      · intro i hi
        rcases List.mem_append.mp hi with h | h
        · exact IR i h
        · refine Resolvable.intro i (I2 i h) ?_ ?_
          · intro d hd
            obtain ⟨j, hj, he⟩ := I7 i h d hd
            exact ⟨j, I1 j hj, he⟩
          · intro j hjn hjd
            obtain ⟨j2, hj2, he2⟩ := I7 i h (stepId j) hjd
            have hjj := stepId_injective j j2 he2
            subst hjj
            exact IR j hj2
      · rw [List.map_append, IM]
        congr 1
        have hmm : (queue.map (fun i => (i, caughtStepResult (outcome i)))).map Prod.fst
            = queue.map (fun i => i) := by
          rw [List.map_map]
          rfl
        rw [hmm, List.map_id']
      · intro e h1 h2 h3
        have h2t : e ∉ trace := fun hh => h2 (List.mem_append.mpr (Or.inl hh))
        have h2q : e ∉ queue := fun hh => h2 (List.mem_append.mpr (Or.inr hh))
        exact P3 e h1 h2t h2q h3

/-- The scheduling loop of `_execute_dag` run from its initial state. -/
def dagRun (steps : List WorkflowStep) (outcome : Nat → StepOutcome) :
    List (Nat × StepResult) × List Nat :=
  dagLoop steps outcome steps.length (initInDeg steps)
    ((List.range steps.length).filter (fun i => initInDeg steps i == 0)) [] []

/-- The results of `_execute_dag` reordered into declaration order, skipping
steps without an entry. -/
def dagOrdered (steps : List WorkflowStep) (outcome : Nat → StepOutcome) :
    List (Nat × StepResult) :=
  (List.range steps.length).filterMap (fun i =>
    ((dagRun steps outcome).1.reverse.find? (fun p => p.1 == i)).map (fun p => (i, p.2)))

/-- DAG execution under a zero-in-degree seed: the mode executor succeeds,
every executed step is `Resolvable`, and every ordered result entry belongs
to an executed step. -/
theorem execDag_sound (name onError : String) (steps : List WorkflowStep)
    (outcome : Nat → StepOutcome)
    (hseed : ∃ i, i < steps.length ∧ depsOf steps i = []) :
    modeExec true ⟨name, "dag", steps, onError⟩ outcome
      = .ok (dagOrdered steps outcome, (dagRun steps outcome).2) ∧
    (∀ i ∈ (dagRun steps outcome).2, Resolvable steps i) ∧
    (∀ p ∈ dagOrdered steps outcome, p.1 ∈ (dagRun steps outcome).2) := by
  obtain ⟨i0, hi0, hdeps0⟩ := hseed
  have hmem0 : i0 ∈ (List.range steps.length).filter
      (fun i => initInDeg steps i == 0) := by
    rw [List.mem_filter]
    refine ⟨List.mem_range.mpr hi0, ?_⟩
    simp [initInDeg, hdeps0]
  have hq : (List.range steps.length).filter (fun i => initInDeg steps i == 0) ≠ [] :=
    List.ne_nil_of_mem hmem0
  have hsound := dagLoop_sound steps outcome steps.length (initInDeg steps)
    ((List.range steps.length).filter (fun i => initInDeg steps i == 0)) [] []
    (by intro i hi; simp at hi)
    (by
      intro i hi
      rw [List.mem_filter] at hi
      exact List.mem_range.mp hi.1)
    List.nodup_nil
    (List.Nodup.filter _ (List.nodup_range _))
    (by intro i hi; simp)
    (by intro i hi; simp at hi)
    (by
      intro i hi
      rw [List.mem_filter] at hi
      have hz : initInDeg steps i = 0 := by simpa using hi.2
      have hlen : (depsOf steps i).length = 0 := by
        rw [initInDeg] at hz
        exact_mod_cast hz
      have hnil : depsOf steps i = [] := List.length_eq_zero.mp hlen
      intro d hd
      rw [hnil] at hd
      simp at hd)
    (by intro i hi; simp at hi)
    rfl
    (by
      intro e h1 h2 h3
      rw [unsat_nil, initInDeg])
  obtain ⟨Q1, Q2, Q3, Q4⟩ := hsound
  refine ⟨?_, ?_, ?_⟩
  · rw [show modeExec true ⟨name, "dag", steps, onError⟩ outcome
      = (if (List.range steps.length).filter (fun i => initInDeg steps i == 0) = []
        then Except.error "No steps with zero dependencies found - possible cycle in DAG"
        else Except.ok (dagOrdered steps outcome, (dagRun steps outcome).2))
      from rfl]
    rw [if_neg hq]
  · intro i hi
    exact Q1 i hi
  · intro p hp
    rw [dagOrdered, List.mem_filterMap] at hp
    obtain ⟨i, hi, hsome⟩ := hp
    rw [Option.map_eq_some'] at hsome
    obtain ⟨q, hfind, hpq⟩ := hsome
    have hqmem : q ∈ (dagRun steps outcome).1.reverse := List.mem_of_find?_eq_some hfind
    rw [List.mem_reverse] at hqmem
    have hq1 : q.1 ∈ (dagRun steps outcome).1.map Prod.fst :=
      List.mem_map_of_mem Prod.fst hqmem
    rw [show (dagRun steps outcome).1.map Prod.fst = (dagRun steps outcome).2 from Q2] at hq1
    have hpe := List.find?_some hfind
    have hpe2 : q.1 = i := by simpa using hpe
    rw [← hpq]
    simpa [hpe2] using hq1

/-- Demo DAG: step 0 is independent, steps 1 and 2 form a dependency cycle. -/
def cycSteps : List WorkflowStep :=
  [⟨"a", "", []⟩, ⟨"b", "", ["step_2"]⟩, ⟨"c", "", ["step_1"]⟩]

theorem cyc_not_resolvable : ¬ Resolvable cycSteps 1 := by
  have key : ∀ i, Resolvable cycSteps i → i ≠ 1 ∧ i ≠ 2 := by
    intro i hi
    induction hi with
    | intro i hlt hex hdeps ih =>
      constructor
      · intro h1
        subst h1
        have h2 := ih 2 (by decide) (by decide)
        exact h2.2 rfl
      · intro h2
        subst h2
        have h1 := ih 1 (by decide) (by decide)
        exact h1.1 rfl
  intro h
  exact (key 1 h).1 rfl

/-- C10: for every DAG workflow with at least one zero-in-degree step, any
unreachable step (one that is not `Resolvable`: it lies on a dependency cycle
or depends, directly or transitively, on a cycle or a nonexistent step id) is
never executed and produces no entry in the results list, while the response
counts only the entries that are present; consequently a workflow can report
status `completed` with `steps_completed` strictly below `steps_total`, as the
cycle demo (independent step 0 plus the 1-2 cycle) exhibits: status
`completed`, `steps_completed = 1`, `steps_total = 3`, only step 0 executed. -/
theorem c10_dag_unreachable_omitted (name onError : String) (steps : List WorkflowStep)
    (outcome : Nat → StepOutcome) (i0 : Nat)
    (hseed : ∃ i, i < steps.length ∧ depsOf steps i = [])
    (hunreach : ¬ Resolvable steps i0) :
    (modeExec true ⟨name, "dag", steps, onError⟩ outcome
      = .ok (dagOrdered steps outcome, (dagRun steps outcome).2) ∧
    i0 ∉ (dagRun steps outcome).2 ∧
    (∀ p ∈ dagOrdered steps outcome, p.1 ≠ i0) ∧
    (executeWorkflow true ⟨name, "dag", steps, onError⟩ outcome).1.results
      = dagOrdered steps outcome ∧
    (executeWorkflow true ⟨name, "dag", steps, onError⟩ outcome).1.stepsCompleted
      = ((dagOrdered steps outcome).filter (fun p => p.2.status == "success")).length ∧
    (executeWorkflow true ⟨name, "dag", steps, onError⟩ outcome).1.stepsFailed
      = ((dagOrdered steps outcome).filter (fun p => p.2.status == "error")).length ∧
    (executeWorkflow true ⟨name, "dag", steps, onError⟩ outcome).2
      = (dagRun steps outcome).2) ∧
    executeWorkflow true ⟨"w", "dag", cycSteps, "stop"⟩ (fun _ => .resp "success" none)
      = (⟨"completed", 1, 3, 0, [(0, ⟨"success", none⟩)]⟩, [0]) := by
  obtain ⟨hok, hres, hmem⟩ := execDag_sound name onError steps outcome hseed
  refine ⟨⟨hok, ?_, ?_, ?_, ?_, ?_, ?_⟩, ?_⟩
  · intro hmem0
    exact hunreach (hres i0 hmem0)
  · intro p hp he
    apply hunreach
    rw [← he]
    exact hres p.1 (hmem p hp)
  · simp [executeWorkflow, hok]
  · simp [executeWorkflow, hok]
  · simp [executeWorkflow, hok]
  · simp [executeWorkflow, hok]
  · rfl

/-- C10, witness: the cycle demo instantiated at the unreachable step 1. -/
theorem c10_dag_unreachable_omitted_witness :
    (modeExec true ⟨"w", "dag", cycSteps, "stop"⟩ (fun _ => .resp "success" none)
      = .ok (dagOrdered cycSteps (fun _ => .resp "success" none),
          (dagRun cycSteps (fun _ => .resp "success" none)).2) ∧
    1 ∉ (dagRun cycSteps (fun _ => .resp "success" none)).2 ∧
    (∀ p ∈ dagOrdered cycSteps (fun _ => .resp "success" none), p.1 ≠ 1) ∧
    (executeWorkflow true ⟨"w", "dag", cycSteps, "stop"⟩
        (fun _ => .resp "success" none)).1.results
      = dagOrdered cycSteps (fun _ => .resp "success" none) ∧
    (executeWorkflow true ⟨"w", "dag", cycSteps, "stop"⟩
        (fun _ => .resp "success" none)).1.stepsCompleted
      = ((dagOrdered cycSteps (fun _ => .resp "success" none)).filter
          (fun p => p.2.status == "success")).length ∧
    (executeWorkflow true ⟨"w", "dag", cycSteps, "stop"⟩
        (fun _ => .resp "success" none)).1.stepsFailed
      = ((dagOrdered cycSteps (fun _ => .resp "success" none)).filter
          (fun p => p.2.status == "error")).length ∧
    (executeWorkflow true ⟨"w", "dag", cycSteps, "stop"⟩
        (fun _ => .resp "success" none)).2
      = (dagRun cycSteps (fun _ => .resp "success" none)).2) ∧
    executeWorkflow true ⟨"w", "dag", cycSteps, "stop"⟩ (fun _ => .resp "success" none)
      = (⟨"completed", 1, 3, 0, [(0, ⟨"success", none⟩)]⟩, [0]) :=
  c10_dag_unreachable_omitted "w" "stop" cycSteps (fun _ => .resp "success" none) 1
    ⟨0, by decide, rfl⟩ cyc_not_resolvable
